import Mathlib

/-!
Verification of the hashed buffer cache (`kernel/bio.c`) of this repository.

The cache is embedded shallowly and sequentially: each exported operation
(`bget`, `brelse`, `bpin`, `bunpin`, `bread`, `bwrite`) is a state
transformer on an explicit `BCache` state.  Spinlock acquisitions and
releases do not change the sequential state; `bget` additionally records
the sequence of spinlock events it performs so that the lock-ordering
discipline of the slow (steal) path can be stated.  Machine `uint`
arithmetic on the reference count is modelled on `Nat` with explicit
reduction modulo `2^32`.  `panic` is modelled by `Option`/`Except`
results carrying no successor state (for `brelse`/`bwrite` the aborted
state is returned in the `error` branch, showing nothing was mutated).
-/

/-- Number of hash buckets, `#define NBUCKETS 13` in `kernel/bio.c`. -/
def NBUCKETS : Nat := 13

/-- Modelled from the spec: the pool size `N` is fixed at initialization
(`struct buf buf[NBUF]`); `param.h` is not part of the sources under
study, in xv6 it sets `NBUF = MAXOPBLOCKS*3 = 30`.  No claim depends on
the particular value. -/
def NBUF : Nat := 30

/-- `2^32`, the modulus of the C `uint` arithmetic on `refcnt`. -/
def UINTMOD : Nat := 2 ^ 32

/-- One cache entry, `struct buf`: identity `(dev, blockno)`, validity
bit, reference count, the sleep lock (`held` records the thread id of
the holder of the exclusive-access token) and the data, abstracted to a
single `Nat`. -/
structure Buf where
  dev : Nat
  blockno : Nat
  valid : Bool
  refcnt : Nat
  held : Option Nat
  data : Nat
deriving DecidableEq

/-- The zero-initialized entry (the cache is a C global, so all fields
start zeroed; the sleep lock starts free). -/
def Buf.init : Buf := ⟨0, 0, false, 0, none, 0⟩

/-- The whole cache: the fixed pool of `NBUF` entries and, for each of
the `NBUCKETS` buckets, the list of pool indices currently linked into
that bucket's circular list (`head.next` first). -/
structure BCache where
  bufs : List Buf
  heads : List (List Nat)
deriving DecidableEq

/-- Read entry `i` of the pool. -/
def getBuf (s : BCache) (i : Nat) : Buf := s.bufs.getD i Buf.init

/-- Overwrite entry `i` of the pool. -/
def setBuf (s : BCache) (i : Nat) (b : Buf) : BCache :=
  { s with bufs := s.bufs.set i b }

/-- The index list of bucket `j`. -/
def getHead (s : BCache) (j : Nat) : List Nat := s.heads.getD j []

/-- Overwrite the index list of bucket `j`. -/
def setHead (s : BCache) (j : Nat) (l : List Nat) : BCache :=
  { s with heads := s.heads.set j l }

/-- The initial contents of bucket `i` built by `binit`: the inner loop
walks `b = bcache.buf+i; b < bcache.buf+NBUF; b += NBUCKETS` inserting
each entry at the head of bucket `i`, so the resulting list is that
ascending index sequence reversed. -/
def initBucket (i : Nat) : List Nat :=
  ((List.range NBUF).filter (fun j => j % NBUCKETS == i)).reverse

/-- `binit`: zeroed entries distributed round-robin over the buckets. -/
def binit : BCache :=
  { bufs := List.replicate NBUF Buf.init
  , heads := (List.range NBUCKETS).map initBucket }

/-- The hit scan of `bget`: walk a bucket's list and return the first
entry with `b->dev == dev && b->blockno == blockno`. -/
def findHit (s : BCache) (dev blockno : Nat) : List Nat → Option Nat
  | [] => none
  | i :: rest =>
    if (getBuf s i).dev = dev ∧ (getBuf s i).blockno = blockno then some i
    else findHit s dev blockno rest

/-- The free scan: return the first entry of the list with
`b->refcnt == 0`. -/
def findFree (s : BCache) : List Nat → Option Nat
  | [] => none
  | i :: rest => if (getBuf s i).refcnt = 0 then some i else findFree s rest

/-- Claim entry `i` for `(dev, blockno)` in place:
`b->dev = dev; b->blockno = blockno; b->valid = 0; b->refcnt = 1;`. -/
def claimInPlace (s : BCache) (i dev blockno : Nat) : BCache :=
  setBuf s i
    { getBuf s i with dev := dev, blockno := blockno, valid := false, refcnt := 1 }

/-- `b->next->prev = b->prev; b->prev->next = b->next;` — splice entry
`i` out of the bucket list that physically contains it.  In the index
model this is erasing `i` from every bucket's list (it occurs in at most
one of them). -/
def unlink (s : BCache) (i : Nat) : BCache :=
  { s with heads := s.heads.map (fun l => l.erase i) }

/-- Head insertion into bucket `j`:
`b->next = head[j].next; b->prev = &head[j]; ...`. -/
def pushFront (s : BCache) (j i : Nat) : BCache :=
  setHead s j (i :: getHead s j)

/-- A spinlock event of the cache: the coarse `global_lock` or the lock
of bucket `i`. -/
inductive LockEv where
  | acqGlobal : LockEv
  | relGlobal : LockEv
  | acqBucket : Nat → LockEv
  | relBucket : Nat → LockEv
deriving DecidableEq

/-- The pool scan of the slow (steal) path of `bget` in `kernel/bio.c`
(lines 111–145), over a list of pool indices: for each probed entry
compute `new_id = b->blockno % NBUCKETS`; `if (new_id == id) continue;`
else acquire the probed bucket's lock; a free entry is relabelled,
unlinked from its old bucket and pushed onto the front of bucket `id`,
and the locks are released in the order `new_id`, `id`, global;
otherwise the probed bucket's lock is released and the scan goes on.
Returns the lock-event trace together with the claimed state and
entry index (`none` = the scan fell through to `panic`). -/
def stealScan (s : BCache) (id dev blockno : Nat) :
    List Nat → List LockEv × Option (BCache × Nat)
  | [] => ([], none)
  | i :: rest =>
    if (getBuf s i).blockno % NBUCKETS = id then stealScan s id dev blockno rest
    else if (getBuf s i).refcnt = 0 then
      ([LockEv.acqBucket ((getBuf s i).blockno % NBUCKETS),
        LockEv.relBucket ((getBuf s i).blockno % NBUCKETS),
        LockEv.relBucket id, LockEv.relGlobal],
        some (pushFront (unlink (claimInPlace s i dev blockno) i) id i, i))
    else
      let r := stealScan s id dev blockno rest
      (LockEv.acqBucket ((getBuf s i).blockno % NBUCKETS) ::
        LockEv.relBucket ((getBuf s i).blockno % NBUCKETS) :: r.1, r.2)

/-- `acquiresleep(&b->lock)`: the call returns only once the token is
free; on return the calling thread holds it. -/
def acquiresleep (s : BCache) (tid i : Nat) : BCache :=
  setBuf s i { getBuf s i with held := some tid }

/-- `releasesleep(&b->lock)`. -/
def releasesleep (s : BCache) (i : Nat) : BCache :=
  setBuf s i { getBuf s i with held := none }

/-- `bget(dev, blockno)` of `kernel/bio.c`: hit scan of the target
bucket under its lock; on miss an LRU scan of the same bucket's list
from the tail (`head[id].prev` backwards) claiming in place; otherwise
the bucket lock is dropped, the global lock and then the bucket lock
are taken, and the pool is scanned (`stealScan`).  Falling through is
`panic("bget: no buffers")`, modelled as `none`.  The first component
is the spinlock event trace.  (`int id = blockno % NBUCKETS` of the C
code is written out at each occurrence.) -/
def bget (s : BCache) (tid dev blockno : Nat) :
    List LockEv × Option (BCache × Nat) :=
  match findHit s dev blockno (getHead s (blockno % NBUCKETS)) with
  | some i =>
    ([LockEv.acqBucket (blockno % NBUCKETS), LockEv.relBucket (blockno % NBUCKETS)],
      some (acquiresleep
        (setBuf s i { getBuf s i with refcnt := ((getBuf s i).refcnt + 1) % UINTMOD })
        tid i, i))
  | none =>
    match findFree s (getHead s (blockno % NBUCKETS)).reverse with
    | some i =>
      ([LockEv.acqBucket (blockno % NBUCKETS), LockEv.relBucket (blockno % NBUCKETS)],
        some (acquiresleep (claimInPlace s i dev blockno) tid i, i))
    | none =>
      (LockEv.acqBucket (blockno % NBUCKETS) :: LockEv.relBucket (blockno % NBUCKETS) ::
        LockEv.acqGlobal :: LockEv.acqBucket (blockno % NBUCKETS) ::
          (stealScan s (blockno % NBUCKETS) dev blockno (List.range NBUF)).1,
        (stealScan s (blockno % NBUCKETS) dev blockno (List.range NBUF)).2.map
          (fun p => (acquiresleep p.1 tid p.2, p.2)))

/-- `brelse(b)`: `panic("brelse")` unless the caller holds the sleep
lock (the `error` branch returns the untouched state); otherwise release
the token, decrement `refcnt` (C `uint` decrement, modulo `2^32`) under
the bucket lock and, if it reached zero, relink the entry at the head of
its bucket's list. -/
def brelse (s : BCache) (tid i : Nat) : Except BCache BCache :=
  if (getBuf s i).held = some tid then
    let s1 := releasesleep s i
    let id := (getBuf s1 i).blockno % NBUCKETS
    let r := ((getBuf s1 i).refcnt + UINTMOD - 1) % UINTMOD
    let s2 := setBuf s1 i { getBuf s1 i with refcnt := r }
    if r = 0 then Except.ok (pushFront (unlink s2 i) id i)
    else Except.ok s2
  else Except.error s

/-- `bpin(b)`: increment `refcnt` under the bucket lock. -/
def bpin (s : BCache) (i : Nat) : BCache :=
  setBuf s i { getBuf s i with refcnt := ((getBuf s i).refcnt + 1) % UINTMOD }

/-- `bunpin(b)`: decrement `refcnt` (C `uint` decrement, modulo `2^32`)
under the bucket lock; no zero check and no relink. -/
def bunpin (s : BCache) (i : Nat) : BCache :=
  setBuf s i { getBuf s i with refcnt := ((getBuf s i).refcnt + UINTMOD - 1) % UINTMOD }

/-- A Storage Adapter call issued by `virtio_disk_rw`. -/
inductive DiskEv where
  | read : Nat → Nat → DiskEv
  | write : Nat → Nat → DiskEv
deriving DecidableEq

/-- `bread(dev, blockno)`: `bget`, then `virtio_disk_rw(b, 0)` and
`b->valid = 1` only when the entry is not valid.  `disk` gives the
on-device contents; the event list records the Storage Adapter reads
issued by this call. -/
def bread (disk : Nat → Nat → Nat) (s : BCache) (tid dev blockno : Nat) :
    Option (BCache × Nat × List DiskEv) :=
  match (bget s tid dev blockno).2 with
  | none => none
  | some (s', i) =>
    if (getBuf s' i).valid then some (s', i, [])
    else
      let b := getBuf s' i
      some (setBuf s' i { b with data := disk b.dev b.blockno, valid := true }, i,
        [DiskEv.read b.dev b.blockno])

/-- `bwrite(b)`: `panic("bwrite")` unless the caller holds the sleep
lock (the `error` branch returns the untouched state and records no
write); otherwise `virtio_disk_rw(b, 1)`, recorded as a write event. -/
def bwrite (s : BCache) (tid i : Nat) : Except BCache (BCache × List DiskEv) :=
  if (getBuf s i).held = some tid then
    Except.ok (s, [DiskEv.write (getBuf s i).dev (getBuf s i).blockno])
  else Except.error s

/-- A caller mutating the data of an entry it holds. -/
def setData (s : BCache) (i v : Nat) : BCache :=
  setBuf s i { getBuf s i with data := v }

/-- The sequential cache-semantics scenario of the spec (§8): read block
`(dev, 5)`, overwrite its data with `v`, commit, release, read it again;
returns the two entry indices, the Storage Adapter reads of the second
`bread`, and the validity bit and data seen by the second `bread`. -/
def writeReadScenario (disk : Nat → Nat → Nat) (s : BCache) (tid dev v : Nat) :
    Option (Nat × Nat × List DiskEv × Bool × Nat) :=
  match bread disk s tid dev 5 with
  | none => none
  | some (s1, e1, _) =>
    match bwrite (setData s1 e1 v) tid e1 with
    | Except.error _ => none
    | Except.ok (s2, _) =>
      match brelse s2 tid e1 with
      | Except.error _ => none
      | Except.ok s3 =>
        match bread disk s3 tid dev 5 with
        | none => none
        | some (s4, e2, evs2) => some (e1, e2, evs2, (getBuf s4 e2).valid, (getBuf s4 e2).data)

/-- Checker for the multi-granularity lock discipline over a spinlock
trace.  State: is the coarse lock held, and the list of bucket locks
currently held.  It enforces: the coarse lock is only taken with no
bucket lock held (so it precedes every bucket lock of its critical
section) and only released with no bucket lock held (so it is released
after all of them); bucket locks are never taken recursively and only
released while held. -/
def coarseOrderOK : List LockEv → Bool → List Nat → Bool
  | [], _, _ => true
  | LockEv.acqGlobal :: tr, g, bs => !g && bs.isEmpty && coarseOrderOK tr true bs
  | LockEv.relGlobal :: tr, g, bs => g && bs.isEmpty && coarseOrderOK tr false bs
  | LockEv.acqBucket i :: tr, g, bs => !(bs.contains i) && coarseOrderOK tr g (i :: bs)
  | LockEv.relBucket i :: tr, g, bs => bs.contains i && coarseOrderOK tr g (bs.erase i)

/-- The inductive state invariant of the cache:
lengths of the pool and bucket array; bucket lists hold valid,
duplicate-free indices, and no index sits in two buckets; every live
entry (`refcnt > 0`) is linked into bucket `blockno % NBUCKETS` and is
the first entry of that bucket's list matching its own identity (hence
identities of live entries are unique); all reference counts are
reduced modulo `2^32`. -/
def CacheInv (s : BCache) : Prop :=
  s.bufs.length = NBUF ∧
  s.heads.length = NBUCKETS ∧
  (∀ j < NBUCKETS, ∀ i ∈ getHead s j, i < NBUF) ∧
  (∀ j < NBUCKETS, (getHead s j).Nodup) ∧
  (∀ j1 < NBUCKETS, ∀ j2 < NBUCKETS, ∀ i ∈ getHead s j1,
    i ∈ getHead s j2 → j1 = j2) ∧
  (∀ i < NBUF, 0 < (getBuf s i).refcnt →
    i ∈ getHead s ((getBuf s i).blockno % NBUCKETS)) ∧
  (∀ i < NBUF, 0 < (getBuf s i).refcnt →
    findHit s (getBuf s i).dev (getBuf s i).blockno
      (getHead s ((getBuf s i).blockno % NBUCKETS)) = some i) ∧
  (∀ i < NBUF, (getBuf s i).refcnt < UINTMOD)

instance : DecidablePred CacheInv := fun s => by unfold CacheInv; infer_instance

/-- States reachable from `binit` by completed cache operations under
the caller discipline of the spec: `brelse` only by the thread holding
the sleep token, and `brelse`/`bpin`/`bunpin` only on an entry the
caller still holds a reservation on (`refcnt > 0`, matched calls). -/
inductive Reach : BCache → Prop where
  | init : Reach binit
  | step_bget : ∀ {s s' i} (tid dev blockno : Nat), Reach s →
      (bget s tid dev blockno).2 = some (s', i) → Reach s'
  | step_brelse : ∀ {s s'} (tid i : Nat), Reach s → i < NBUF →
      0 < (getBuf s i).refcnt → brelse s tid i = Except.ok s' → Reach s'
  | step_bpin : ∀ {s} (i : Nat), Reach s → i < NBUF →
      0 < (getBuf s i).refcnt → Reach (bpin s i)
  | step_bunpin : ∀ {s} (i : Nat), Reach s → i < NBUF →
      0 < (getBuf s i).refcnt → Reach (bunpin s i)

/-! ### Concrete example states, used to witness the theorems below.
`exSt1`–`exSt3` pin the three entries of bucket 0 (blocks 0, 13, 26 of
device 1); `exSt4`/`exSt5` claim and release block 1; `exSt6` is the
state after the steal path moves entry 1 into bucket 0 for block 39;
`exB5`/`exC9s` cache block 5 and release it. -/

def exSt1 : BCache := ((bget binit 0 1 0).2.getD (binit, 0)).1

def exSt2 : BCache := ((bget exSt1 0 1 13).2.getD (binit, 0)).1

def exSt3 : BCache := ((bget exSt2 0 1 26).2.getD (binit, 0)).1

def exSt4 : BCache := ((bget exSt3 0 1 1).2.getD (binit, 0)).1

def exSt5 : BCache := (brelse exSt4 0 1).toOption.getD binit

def exSt6 : BCache := ((bget exSt5 0 1 39).2.getD (binit, 0)).1

def exScanSt : BCache := ((stealScan exSt5 0 1 39 (List.range NBUF)).2.getD (binit, 0)).1

def exB5 : BCache := ((bget binit 0 1 5).2.getD (binit, 0)).1

def exC9s : BCache := (brelse exB5 0 5).toOption.getD binit

/-! ### Accessor lemmas -/

theorem getBuf_setBuf_self {s : BCache} {i : Nat} (b : Buf) (h : i < s.bufs.length) :
    getBuf (setBuf s i b) i = b := by
  simp [getBuf, setBuf, List.getD_eq_getElem?_getD, List.getElem?_set_self h]

theorem getBuf_setBuf_ne {s : BCache} {i j : Nat} (b : Buf) (h : i ≠ j) :
    getBuf (setBuf s i b) j = getBuf s j := by
  simp [getBuf, setBuf, List.getD_eq_getElem?_getD, List.getElem?_set_ne h]

theorem heads_setBuf (s : BCache) (i : Nat) (b : Buf) :
    (setBuf s i b).heads = s.heads := rfl

theorem getHead_setBuf (s : BCache) (i : Nat) (b : Buf) (j : Nat) :
    getHead (setBuf s i b) j = getHead s j := rfl

theorem bufs_length_setBuf (s : BCache) (i : Nat) (b : Buf) :
    (setBuf s i b).bufs.length = s.bufs.length := List.length_set ..

theorem bufs_unlink (s : BCache) (i : Nat) : (unlink s i).bufs = s.bufs := rfl

theorem bufs_pushFront (s : BCache) (j i : Nat) : (pushFront s j i).bufs = s.bufs := rfl

theorem getBuf_unlink (s : BCache) (i k : Nat) : getBuf (unlink s i) k = getBuf s k := rfl

theorem getBuf_pushFront (s : BCache) (j i k : Nat) :
    getBuf (pushFront s j i) k = getBuf s k := rfl

theorem heads_length_unlink (s : BCache) (i : Nat) :
    (unlink s i).heads.length = s.heads.length := List.length_map ..

theorem heads_length_pushFront (s : BCache) (j i : Nat) :
    (pushFront s j i).heads.length = s.heads.length := List.length_set ..

theorem getHead_unlink (s : BCache) (i j : Nat) :
    getHead (unlink s i) j = (getHead s j).erase i := by
  unfold getHead unlink
  simp only [List.getD_eq_getElem?_getD, List.getElem?_map]
  cases s.heads[j]? <;> simp

theorem getHead_setHead_self {s : BCache} {j : Nat} (l : List Nat)
    (h : j < s.heads.length) : getHead (setHead s j l) j = l := by
  simp [getHead, setHead, List.getD_eq_getElem?_getD, List.getElem?_set_self h]

theorem getHead_setHead_ne {s : BCache} {j j' : Nat} (l : List Nat) (h : j ≠ j') :
    getHead (setHead s j l) j' = getHead s j' := by
  simp [getHead, setHead, List.getD_eq_getElem?_getD, List.getElem?_set_ne h]

theorem getHead_pushFront_self {s : BCache} {j : Nat} (i : Nat)
    (h : j < s.heads.length) : getHead (pushFront s j i) j = i :: getHead s j :=
  getHead_setHead_self _ h

theorem getHead_pushFront_ne {s : BCache} {j j' : Nat} (i : Nat) (h : j ≠ j') :
    getHead (pushFront s j i) j' = getHead s j' :=
  getHead_setHead_ne _ h

/-! ### Scan lemmas -/

/-- Whether entry `i` matches the requested identity. -/
def matchesId (s : BCache) (dev blockno i : Nat) : Prop :=
  (getBuf s i).dev = dev ∧ (getBuf s i).blockno = blockno

instance (s : BCache) (dev blockno i : Nat) : Decidable (matchesId s dev blockno i) := by
  unfold matchesId; infer_instance

theorem findHit_cons (s : BCache) (dev blockno i : Nat) (l : List Nat) :
    findHit s dev blockno (i :: l) =
      if matchesId s dev blockno i then some i else findHit s dev blockno l := rfl

theorem findHit_some {s : BCache} {dev blockno : Nat} {l : List Nat} {i : Nat}
    (h : findHit s dev blockno l = some i) :
    i ∈ l ∧ matchesId s dev blockno i := by
  induction l with
  | nil => simp [findHit] at h
  | cons a t ih =>
    rw [findHit_cons] at h
    split at h
    · cases h; exact ⟨List.mem_cons_self .., by assumption⟩
    · rcases ih h with ⟨h1, h2⟩
      exact ⟨List.mem_cons_of_mem _ h1, h2⟩

theorem findHit_none {s : BCache} {dev blockno : Nat} {l : List Nat}
    (h : findHit s dev blockno l = none) :
    ∀ j ∈ l, ¬matchesId s dev blockno j := by
  induction l with
  | nil => simp
  | cons a t ih =>
    rw [findHit_cons] at h
    split at h
    · cases h
    · intro j hj
      rcases List.mem_cons.mp hj with rfl | hj
      · assumption
      · exact ih h j hj

theorem findHit_first {s : BCache} {dev blockno : Nat} {l : List Nat} {i : Nat}
    (hnm : ∀ j ∈ l, j ≠ i → ¬matchesId s dev blockno j)
    (hmem : i ∈ l) (hm : matchesId s dev blockno i) :
    findHit s dev blockno l = some i := by
  induction l with
  | nil => cases hmem
  | cons a t ih =>
    rw [findHit_cons]
    by_cases ha : a = i
    · subst ha; simp [hm]
    · have : ¬matchesId s dev blockno a :=
        hnm a (List.mem_cons_self ..) ha
      rw [if_neg this]
      exact ih (fun j hj => hnm j (List.mem_cons_of_mem _ hj))
        (List.mem_cons.mp hmem |>.resolve_left fun h => ha h.symm)

/-- The hit scan only looks at the identities of the entries in the
list: if those agree between two states, the scans agree. -/
theorem findHit_congr {s s' : BCache} {dev blockno : Nat} {l : List Nat}
    (h : ∀ j ∈ l, (getBuf s' j).dev = (getBuf s j).dev ∧
      (getBuf s' j).blockno = (getBuf s j).blockno) :
    findHit s' dev blockno l = findHit s dev blockno l := by
  induction l with
  | nil => rfl
  | cons a t ih =>
    have ha := h a (List.mem_cons_self ..)
    rw [findHit_cons, findHit_cons]
    have : matchesId s' dev blockno a ↔ matchesId s dev blockno a := by
      unfold matchesId; rw [ha.1, ha.2]
    rw [if_congr this rfl (ih fun j hj => h j (List.mem_cons_of_mem _ hj))]

/-- Erasing an element other than the result of the hit scan does not
change its result. -/
theorem findHit_erase {s : BCache} {dev blockno : Nat} {l : List Nat} {i k : Nat}
    (hik : i ≠ k) (h : findHit s dev blockno l = some k) :
    findHit s dev blockno (l.erase i) = some k := by
  induction l with
  | nil => simp [findHit] at h
  | cons a t ih =>
    rw [findHit_cons] at h
    by_cases hai : a = i
    · subst hai
      rw [List.erase_cons_head]
      split at h
      · cases h; exact absurd rfl hik
      · exact h
    · rw [List.erase_cons_tail (by simp [bne_iff_ne]; exact hai), findHit_cons]
      split at h
      · cases h; simp [*]
      · rw [if_neg (by assumption)]; exact ih h

/-- Changing the identity of a single entry `i` to one that does not
match the request leaves a hit on `k ≠ i` intact. -/
theorem findHit_update {s s' : BCache} {dev blockno : Nat} {l : List Nat} {i k : Nat}
    (h : findHit s dev blockno l = some k) (hik : i ≠ k)
    (hsame : ∀ j ∈ l, j ≠ i → (getBuf s' j).dev = (getBuf s j).dev ∧
      (getBuf s' j).blockno = (getBuf s j).blockno)
    (hnm : ¬matchesId s' dev blockno i) :
    findHit s' dev blockno l = some k := by
  induction l with
  | nil => simp [findHit] at h
  | cons a t ih =>
    rw [findHit_cons] at h ⊢
    by_cases hai : a = i
    · subst hai
      rw [if_neg hnm]
      split at h
      · cases h; exact absurd rfl hik
      · exact ih h (fun j hj hji => hsame j (List.mem_cons_of_mem _ hj) hji)
    · have ha := hsame a (List.mem_cons_self ..) hai
      have heq : matchesId s' dev blockno a ↔ matchesId s dev blockno a := by
        unfold matchesId; rw [ha.1, ha.2]
      split at h
      · cases h; rw [if_pos (heq.mpr (by assumption))]
      · rw [if_neg (fun hc => (by assumption : ¬matchesId s dev blockno a) (heq.mp hc))]
        exact ih h (fun j hj hji => hsame j (List.mem_cons_of_mem _ hj) hji)

theorem findFree_some {s : BCache} {l : List Nat} {i : Nat}
    (h : findFree s l = some i) : i ∈ l ∧ (getBuf s i).refcnt = 0 := by
  induction l with
  | nil => simp [findFree] at h
  | cons a t ih =>
    unfold findFree at h
    split at h
    · cases h; exact ⟨List.mem_cons_self .., by assumption⟩
    · rcases ih h with ⟨h1, h2⟩
      exact ⟨List.mem_cons_of_mem _ h1, h2⟩

theorem findFree_none {s : BCache} {l : List Nat}
    (h : findFree s l = none) : ∀ j ∈ l, (getBuf s j).refcnt ≠ 0 := by
  induction l with
  | nil => simp
  | cons a t ih =>
    unfold findFree at h
    split at h
    · cases h
    · intro j hj
      rcases List.mem_cons.mp hj with rfl | hj
      · assumption
      · exact ih h j hj

/-! ### Steal-scan lemmas -/

theorem stealScan_some {s : BCache} {id dev blockno : Nat} {l : List Nat}
    {s' : BCache} {i : Nat}
    (h : (stealScan s id dev blockno l).2 = some (s', i)) :
    i ∈ l ∧ (getBuf s i).refcnt = 0 ∧ (getBuf s i).blockno % NBUCKETS ≠ id ∧
      s' = pushFront (unlink (claimInPlace s i dev blockno) i) id i := by
  induction l with
  | nil => simp [stealScan] at h
  | cons a t ih =>
    unfold stealScan at h
    split at h
    · rcases ih h with ⟨h1, h2, h3, h4⟩
      exact ⟨List.mem_cons_of_mem _ h1, h2, h3, h4⟩
    · split at h
      · simp only [Option.some.injEq, Prod.mk.injEq] at h
        rcases h with ⟨h1, h2⟩
        subst h2
        exact ⟨List.mem_cons_self .., by assumption, by assumption, h1.symm⟩
      · simp only at h
        rcases ih h with ⟨h1, h2, h3, h4⟩
        exact ⟨List.mem_cons_of_mem _ h1, h2, h3, h4⟩

theorem stealScan_none {s : BCache} {id dev blockno : Nat} {l : List Nat} :
    (stealScan s id dev blockno l).2 = none ↔
      ∀ i ∈ l, (getBuf s i).blockno % NBUCKETS = id ∨ (getBuf s i).refcnt ≠ 0 := by
  induction l with
  | nil => simp [stealScan]
  | cons a t ih =>
    unfold stealScan
    split
    · rw [ih]
      constructor
      · intro h j hj
        rcases List.mem_cons.mp hj with rfl | hj
        · exact Or.inl (by assumption)
        · exact h j hj
      · intro h j hj
        exact h j (List.mem_cons_of_mem _ hj)
    · split
      · simp only [iff_false, reduceCtorEq, false_iff]
        intro h
        rcases h a (List.mem_cons_self ..) with hc | hc
        · exact (by assumption : ¬_) hc
        · exact hc (by assumption)
      · simp only
        rw [ih]
        constructor
        · intro h j hj
          rcases List.mem_cons.mp hj with rfl | hj
          · exact Or.inr (by assumption)
          · exact h j hj
        · intro h j hj
          exact h j (List.mem_cons_of_mem _ hj)

/-- Unfolding equation for the pool scan on a cons cell. -/
theorem stealScan_cons (s : BCache) (id dev blockno a : Nat) (t : List Nat) :
    stealScan s id dev blockno (a :: t) =
      if (getBuf s a).blockno % NBUCKETS = id then stealScan s id dev blockno t
      else if (getBuf s a).refcnt = 0 then
        ([LockEv.acqBucket ((getBuf s a).blockno % NBUCKETS),
          LockEv.relBucket ((getBuf s a).blockno % NBUCKETS),
          LockEv.relBucket id, LockEv.relGlobal],
          some (pushFront (unlink (claimInPlace s a dev blockno) a) id a, a))
      else
        (LockEv.acqBucket ((getBuf s a).blockno % NBUCKETS) ::
          LockEv.relBucket ((getBuf s a).blockno % NBUCKETS) ::
          (stealScan s id dev blockno t).1, (stealScan s id dev blockno t).2) := rfl

/-- On success the scan trace ends with the release sequence
probed bucket, target bucket, global. -/
theorem stealScan_trace_success {s : BCache} {id dev blockno : Nat} {l : List Nat}
    {s' : BCache} {i : Nat}
    (h : (stealScan s id dev blockno l).2 = some (s', i)) :
    ∃ pre, (stealScan s id dev blockno l).1 = pre ++
      [LockEv.acqBucket ((getBuf s i).blockno % NBUCKETS),
       LockEv.relBucket ((getBuf s i).blockno % NBUCKETS),
       LockEv.relBucket id, LockEv.relGlobal] := by
  induction l with
  | nil => simp [stealScan] at h
  | cons a t ih =>
    rw [stealScan_cons] at h ⊢
    by_cases h1 : (getBuf s a).blockno % NBUCKETS = id
    · rw [if_pos h1] at h ⊢
      exact ih h
    · rw [if_neg h1] at h ⊢
      by_cases h2 : (getBuf s a).refcnt = 0
      · rw [if_pos h2] at h ⊢
        simp only [Option.some.injEq, Prod.mk.injEq] at h
        rcases h with ⟨-, h4⟩
        subst h4
        exact ⟨[], rfl⟩
      · rw [if_neg h2] at h ⊢
        rcases ih h with ⟨pre, hpre⟩
        exact ⟨LockEv.acqBucket ((getBuf s a).blockno % NBUCKETS) ::
          LockEv.relBucket ((getBuf s a).blockno % NBUCKETS) :: pre, by simp [hpre]⟩

/-- Every bucket acquired by the pool scan is a bucket other than the
target: the scan never re-acquires (and never releases) the target
bucket's lock. -/
theorem stealScan_no_target_bucket {s : BCache} {id dev blockno : Nat} {l : List Nat} :
    LockEv.acqBucket id ∉ (stealScan s id dev blockno l).1 := by
  induction l with
  | nil => simp [stealScan]
  | cons a t ih =>
    rw [stealScan_cons]
    by_cases h1 : (getBuf s a).blockno % NBUCKETS = id
    · rw [if_pos h1]; exact ih
    · rw [if_neg h1]
      by_cases h2 : (getBuf s a).refcnt = 0
      · rw [if_pos h2]
        intro hmem
        simp only [List.mem_cons, List.mem_singleton] at hmem
        rcases hmem with h | h | h | h | h
        · exact h1 (LockEv.acqBucket.inj h).symm
        all_goals cases h
      · rw [if_neg h2]
        intro hmem
        simp only [List.mem_cons] at hmem
        rcases hmem with h | h | h
        · exact h1 (LockEv.acqBucket.inj h).symm
        · cases h
        · exact ih h

/-- The lock-order checker accepts any pool-scan trace started while
holding the global lock and the target bucket's lock. -/
theorem stealScan_coarseOrderOK {s : BCache} {id dev blockno : Nat} {l : List Nat} :
    coarseOrderOK (stealScan s id dev blockno l).1 true [id] = true := by
  induction l with
  | nil => simp [stealScan, coarseOrderOK]
  | cons a t ih =>
    rw [stealScan_cons]
    by_cases h1 : (getBuf s a).blockno % NBUCKETS = id
    · rw [if_pos h1]; exact ih
    · rw [if_neg h1]
      by_cases h2 : (getBuf s a).refcnt = 0
      · rw [if_pos h2]
        simp [coarseOrderOK, List.contains, List.elem_eq_mem, h1, List.erase_cons_head]
      · rw [if_neg h2]
        simp only [coarseOrderOK, List.contains, List.elem_eq_mem, List.mem_singleton,
          decide_eq_true_eq, Bool.not_eq_true]
        rw [List.erase_cons_head]
        simp [h1, ih]

/-! ### Relink (unlink + head-insert) lemmas -/

theorem getHead_relink_self {u : BCache} {i id : Nat} (h : id < u.heads.length) :
    getHead (pushFront (unlink u i) id i) id = i :: (getHead u id).erase i := by
  rw [getHead_pushFront_self i (by rw [heads_length_unlink]; exact h), getHead_unlink]

theorem getHead_relink_ne {u : BCache} {i id j : Nat} (h : id ≠ j) :
    getHead (pushFront (unlink u i) id i) j = (getHead u j).erase i := by
  rw [getHead_pushFront_ne i h, getHead_unlink]

/-- Membership in a bucket after a relink, for entries other than the
relinked one. -/
theorem mem_relink_ne {u : BCache} {i id j k : Nat} (hk : k ≠ i)
    (hid : id < u.heads.length) :
    (k ∈ getHead (pushFront (unlink u i) id i) j ↔ k ∈ getHead u j) := by
  by_cases hj : id = j
  · subst hj
    rw [getHead_relink_self hid]
    simp [List.mem_cons, hk, List.mem_erase_of_ne hk]
  · rw [getHead_relink_ne hj, List.mem_erase_of_ne hk]

/-- The relinked entry sits exactly in the target bucket (given
duplicate-free buckets). -/
theorem mem_relink_self {u : BCache} {i id j : Nat}
    (hid : id < u.heads.length) (hnd : ∀ j' < u.heads.length, (getHead u j').Nodup)
    (hj : j < u.heads.length) :
    (i ∈ getHead (pushFront (unlink u i) id i) j ↔ j = id) := by
  by_cases hji : id = j
  · subst hji
    rw [getHead_relink_self hid]
    simp
  · rw [getHead_relink_ne hji]
    constructor
    · intro hmem
      exact absurd hmem (hnd j hj).not_mem_erase
    · intro hji2
      exact absurd hji2.symm hji

/-- Identities of live entries are unique (derived from the placement
and first-match components of the invariant). -/
theorem live_unique {s : BCache} (hs : CacheInv s) {i k : Nat}
    (hi : i < NBUF) (hk : k < NBUF)
    (hli : 0 < (getBuf s i).refcnt) (hlk : 0 < (getBuf s k).refcnt)
    (hdev : (getBuf s i).dev = (getBuf s k).dev)
    (hblk : (getBuf s i).blockno = (getBuf s k).blockno) : i = k := by
  obtain ⟨-, -, -, -, -, -, h7, -⟩ := hs
  have hi7 := h7 i hi hli
  have hk7 := h7 k hk hlk
  rw [hdev, hblk] at hi7
  rw [hi7] at hk7
  exact (Option.some.injEq ..).mp hk7

/-- Arithmetic of the C `uint` decrement on an in-range positive count. -/
theorem decr_mod {c : Nat} (h1 : 0 < c) (h2 : c < UINTMOD) :
    (c + UINTMOD - 1) % UINTMOD = c - 1 := by
  have h : c + UINTMOD - 1 = (c - 1) + UINTMOD := by omega
  rw [h, Nat.add_mod_right]
  exact Nat.mod_eq_of_lt (by omega)

theorem NBUCKETS_pos : 0 < NBUCKETS := by norm_num [NBUCKETS]

theorem UINTMOD_pos : 0 < UINTMOD := by norm_num [UINTMOD]

/-! ### Invariant preservation -/

theorem inv_binit : CacheInv binit := by decide

theorem inv_hit {s : BCache} {tid dev blockno i : Nat}
    (hs : CacheInv s)
    (hf : findHit s dev blockno (getHead s (blockno % NBUCKETS)) = some i) :
    CacheInv (acquiresleep
      (setBuf s i { getBuf s i with refcnt := ((getBuf s i).refcnt + 1) % UINTMOD })
      tid i) := by
  obtain ⟨h1, h2, h3, h4, h5, h6, h7, h8⟩ := hs
  have hid : blockno % NBUCKETS < NBUCKETS := Nat.mod_lt _ NBUCKETS_pos
  obtain ⟨hmem, hmdev, hmblk⟩ :
      i ∈ getHead s (blockno % NBUCKETS) ∧ (getBuf s i).dev = dev ∧
        (getBuf s i).blockno = blockno := by
    have := findHit_some hf
    exact ⟨this.1, this.2.1, this.2.2⟩
  have hiN : i < NBUF := h3 _ hid i hmem
  have hilen : i < s.bufs.length := by rw [h1]; exact hiN
  set b1 : Buf := { getBuf s i with refcnt := ((getBuf s i).refcnt + 1) % UINTMOD } with hb1
  set s' : BCache := acquiresleep (setBuf s i b1) tid i with hs'
  have hgb_i : getBuf s' i = { b1 with held := some tid } := by
    rw [hs']
    unfold acquiresleep
    rw [getBuf_setBuf_self _ (by rw [bufs_length_setBuf]; exact hilen),
      getBuf_setBuf_self _ hilen]
  have hgb_ne : ∀ k, k ≠ i → getBuf s' k = getBuf s k := by
    intro k hk
    rw [hs']
    unfold acquiresleep
    rw [getBuf_setBuf_ne _ (Ne.symm hk), getBuf_setBuf_ne _ (Ne.symm hk)]
  have hheads : ∀ j, getHead s' j = getHead s j := fun _ => rfl
  have hident : ∀ j, (getBuf s' j).dev = (getBuf s j).dev ∧
      (getBuf s' j).blockno = (getBuf s j).blockno := by
    intro j
    by_cases hj : j = i
    · subst hj; rw [hgb_i]; exact ⟨rfl, rfl⟩
    · rw [hgb_ne j hj]; exact ⟨rfl, rfl⟩
  refine ⟨?_, h2, ?_, ?_, ?_, ?_, ?_, ?_⟩
  · show (acquiresleep (setBuf s i b1) tid i).bufs.length = NBUF
    unfold acquiresleep
    rw [bufs_length_setBuf, bufs_length_setBuf]
    exact h1
  · intro j hj k hk
    exact h3 j hj k (by rw [hheads] at hk; exact hk)
  · intro j hj
    rw [hheads]
    exact h4 j hj
  · intro j1 hj1 j2 hj2 k hk1 hk2
    rw [hheads] at hk1 hk2
    exact h5 j1 hj1 j2 hj2 k hk1 hk2
  · intro k hk hlive
    rw [hheads]
    by_cases hki : k = i
    · subst hki
      rw [hgb_i] at hlive ⊢
      show k ∈ getHead s ((getBuf s k).blockno % NBUCKETS)
      rw [hmblk]
      exact hmem
    · rw [hgb_ne k hki] at hlive ⊢
      exact h6 k hk hlive
  · intro k hk hlive
    by_cases hki : k = i
    · subst hki
      rw [hgb_i]
      show findHit s' (getBuf s k).dev (getBuf s k).blockno
        (getHead s' ((getBuf s k).blockno % NBUCKETS)) = some k
      rw [hheads, hmdev, hmblk]
      rw [findHit_congr (fun j _ => hident j)]
      exact hf
    · rw [hgb_ne k hki] at hlive ⊢
      rw [hheads]
      rw [findHit_congr (fun j _ => hident j)]
      exact h7 k hk hlive
  · intro k hk
    by_cases hki : k = i
    · subst hki
      rw [hgb_i]
      exact Nat.mod_lt _ UINTMOD_pos
    · rw [hgb_ne k hki]
      exact h8 k hk

theorem inv_fastclaim {s : BCache} {tid dev blockno i : Nat}
    (hs : CacheInv s)
    (hf : findHit s dev blockno (getHead s (blockno % NBUCKETS)) = none)
    (hfr : findFree s (getHead s (blockno % NBUCKETS)).reverse = some i) :
    CacheInv (acquiresleep (claimInPlace s i dev blockno) tid i) := by
  obtain ⟨h1, h2, h3, h4, h5, h6, h7, h8⟩ := hs
  have hid : blockno % NBUCKETS < NBUCKETS := Nat.mod_lt _ NBUCKETS_pos
  obtain ⟨hmem', hfree⟩ := findFree_some hfr
  have hmem : i ∈ getHead s (blockno % NBUCKETS) := List.mem_reverse.mp hmem'
  have hiN : i < NBUF := h3 _ hid i hmem
  have hilen : i < s.bufs.length := by rw [h1]; exact hiN
  set s' : BCache := acquiresleep (claimInPlace s i dev blockno) tid i with hs'
  have hgb_i : getBuf s' i = { getBuf s i with dev := dev, blockno := blockno, valid := false, refcnt := 1, held := some tid } := by
    rw [hs']
    unfold acquiresleep claimInPlace
    rw [getBuf_setBuf_self _ (by rw [bufs_length_setBuf]; exact hilen),
      getBuf_setBuf_self _ hilen]
  have hgb_ne : ∀ k, k ≠ i → getBuf s' k = getBuf s k := by
    intro k hk
    rw [hs']
    unfold acquiresleep claimInPlace
    rw [getBuf_setBuf_ne _ (Ne.symm hk), getBuf_setBuf_ne _ (Ne.symm hk)]
  have hheads : ∀ j, getHead s' j = getHead s j := fun _ => rfl
  have hsame : ∀ j, j ≠ i → (getBuf s' j).dev = (getBuf s j).dev ∧
      (getBuf s' j).blockno = (getBuf s j).blockno := by
    intro j hj
    rw [hgb_ne j hj]
    exact ⟨rfl, rfl⟩
  refine ⟨?_, h2, ?_, ?_, ?_, ?_, ?_, ?_⟩
  · show (acquiresleep (claimInPlace s i dev blockno) tid i).bufs.length = NBUF
    unfold acquiresleep claimInPlace
    rw [bufs_length_setBuf, bufs_length_setBuf]
    exact h1
  · intro j hj k hk
    exact h3 j hj k hk
  · intro j hj
    exact h4 j hj
  · intro j1 hj1 j2 hj2 k hk1 hk2
    exact h5 j1 hj1 j2 hj2 k hk1 hk2
  · intro k hk hlive
    by_cases hki : k = i
    · subst hki
      rw [hheads, hgb_i]
      show k ∈ getHead s (blockno % NBUCKETS)
      exact hmem
    · rw [hgb_ne k hki] at hlive ⊢
      rw [hheads]
      exact h6 k hk hlive
  · intro k hk hlive
    by_cases hki : k = i
    · subst hki
      rw [hgb_i, hheads]
      show findHit s' dev blockno (getHead s (blockno % NBUCKETS)) = some k
      refine findHit_first ?_ hmem ?_
      · intro j hj hji
        have hj' := findHit_none hf j hj
        unfold matchesId at hj' ⊢
        rw [(hsame j hji).1, (hsame j hji).2]
        exact hj'
      · unfold matchesId
        rw [hgb_i]
        exact ⟨rfl, rfl⟩
    · rw [hgb_ne k hki] at hlive ⊢
      rw [hheads]
      have hlive_s : 0 < (getBuf s k).refcnt := hlive
      refine findHit_update (h7 k hk hlive_s) (fun h => hki h.symm) ?_ ?_
      · intro j _ hji
        exact hsame j hji
      · unfold matchesId
        rw [hgb_i]
        intro ⟨hdeq, hbeq⟩
        simp only at hdeq hbeq
        have hkb : (getBuf s k).blockno % NBUCKETS = blockno % NBUCKETS := by
          rw [hbeq]
        have h7k := h7 k hk hlive_s
        rw [hkb, ← hdeq, ← hbeq] at h7k
        rw [hf] at h7k
        cases h7k
  · intro k hk
    by_cases hki : k = i
    · subst hki
      rw [hgb_i]
      show 1 < UINTMOD
      norm_num [UINTMOD]
    · rw [hgb_ne k hki]
      exact h8 k hk

theorem inv_steal {s : BCache} {tid dev blockno i : Nat}
    (hs : CacheInv s)
    (hf : findHit s dev blockno (getHead s (blockno % NBUCKETS)) = none)
    (hiN : i < NBUF) (hfree : (getBuf s i).refcnt = 0) :
    CacheInv (acquiresleep
      (pushFront (unlink (claimInPlace s i dev blockno) i) (blockno % NBUCKETS) i)
      tid i) := by
  obtain ⟨h1, h2, h3, h4, h5, h6, h7, h8⟩ := hs
  have hid : blockno % NBUCKETS < NBUCKETS := Nat.mod_lt _ NBUCKETS_pos
  have hilen : i < s.bufs.length := by rw [h1]; exact hiN
  set u : BCache := claimInPlace s i dev blockno with hu
  set s0 : BCache := pushFront (unlink u i) (blockno % NBUCKETS) i with hs0
  set s' : BCache := acquiresleep s0 tid i with hs'
  have hul : blockno % NBUCKETS < u.heads.length := by
    show blockno % NBUCKETS < s.heads.length
    rw [h2]; exact hid
  have hund : ∀ j' < u.heads.length, (getHead u j').Nodup := by
    intro j' hj'
    show (getHead s j').Nodup
    exact h4 j' (by rw [← h2]; exact hj')
  have hs0len : s0.bufs.length = s.bufs.length := by
    rw [hs0]
    show u.bufs.length = s.bufs.length
    rw [hu]
    unfold claimInPlace
    rw [bufs_length_setBuf]
  have hgb_i : getBuf s' i = { getBuf s i with dev := dev, blockno := blockno, valid := false, refcnt := 1, held := some tid } := by
    rw [hs']
    unfold acquiresleep
    rw [getBuf_setBuf_self _ (by rw [hs0len]; exact hilen)]
    show ({ getBuf u i with held := some tid } : Buf) = _
    rw [hu]
    unfold claimInPlace
    rw [getBuf_setBuf_self _ hilen]
  have hgb_ne : ∀ k, k ≠ i → getBuf s' k = getBuf s k := by
    intro k hk
    rw [hs']
    unfold acquiresleep
    rw [getBuf_setBuf_ne _ (Ne.symm hk)]
    show getBuf u k = getBuf s k
    rw [hu]
    unfold claimInPlace
    rw [getBuf_setBuf_ne _ (Ne.symm hk)]
  have hheads : ∀ j, getHead s' j = getHead s0 j := fun _ => rfl
  have hhead_id : getHead s0 (blockno % NBUCKETS) = i :: (getHead s (blockno % NBUCKETS)).erase i := by
    rw [hs0, getHead_relink_self hul]
    exact rfl
  have hhead_ne : ∀ j, blockno % NBUCKETS ≠ j →
      getHead s0 j = (getHead s j).erase i := by
    intro j hj
    rw [hs0, getHead_relink_ne hj]
    exact rfl
  have hsame : ∀ j, j ≠ i → (getBuf s' j).dev = (getBuf s j).dev ∧
      (getBuf s' j).blockno = (getBuf s j).blockno := by
    intro j hj
    rw [hgb_ne j hj]
    exact ⟨rfl, rfl⟩
  refine ⟨?_, ?_, ?_, ?_, ?_, ?_, ?_, ?_⟩
  · show s'.bufs.length = NBUF
    rw [hs']
    unfold acquiresleep
    rw [bufs_length_setBuf, hs0len]
    exact h1
  · show s'.heads.length = NBUCKETS
    rw [hs']
    show s0.heads.length = NBUCKETS
    rw [hs0, heads_length_pushFront, heads_length_unlink]
    exact h2
  · intro j hj k hk
    rw [hheads] at hk
    by_cases hjid : blockno % NBUCKETS = j
    · subst hjid
      rw [hhead_id] at hk
      rcases List.mem_cons.mp hk with rfl | hk
      · exact hiN
      · exact h3 _ hid k ((List.erase_sublist _ _).subset hk)
    · rw [hhead_ne j hjid] at hk
      exact h3 j hj k ((List.erase_sublist _ _).subset hk)
  · intro j hj
    rw [hheads]
    by_cases hjid : blockno % NBUCKETS = j
    · subst hjid
      rw [hhead_id]
      exact List.nodup_cons.mpr ⟨(h4 _ hid).not_mem_erase, (h4 _ hid).erase _⟩
    · rw [hhead_ne j hjid]
      exact (h4 j hj).erase _
  · intro j1 hj1 j2 hj2 k hk1 hk2
    rw [hheads] at hk1 hk2
    by_cases hki : k = i
    · subst hki
      have e1 : j1 = blockno % NBUCKETS :=
        (mem_relink_self hul hund (by rw [show u.heads.length = NBUCKETS from h2]; exact hj1)).mp hk1
      have e2 : j2 = blockno % NBUCKETS :=
        (mem_relink_self hul hund (by rw [show u.heads.length = NBUCKETS from h2]; exact hj2)).mp hk2
      rw [e1, e2]
    · have hk1' : k ∈ getHead s j1 := (mem_relink_ne hki hul).mp hk1
      have hk2' : k ∈ getHead s j2 := (mem_relink_ne hki hul).mp hk2
      exact h5 j1 hj1 j2 hj2 k hk1' hk2'
  · intro k hk hlive
    rw [hheads]
    by_cases hki : k = i
    · subst hki
      rw [hgb_i]
      show k ∈ getHead s0 (blockno % NBUCKETS)
      rw [hhead_id]
      exact List.mem_cons_self ..
    · rw [hgb_ne k hki] at hlive ⊢
      have hmem := h6 k hk hlive
      exact (mem_relink_ne hki hul).mpr hmem
  · intro k hk hlive
    by_cases hki : k = i
    · subst hki
      rw [hgb_i, hheads]
      show findHit s' dev blockno (getHead s0 (blockno % NBUCKETS)) = some k
      rw [hhead_id, findHit_cons,
        if_pos (by unfold matchesId; rw [hgb_i]; exact ⟨rfl, rfl⟩)]
    · rw [hgb_ne k hki] at hlive ⊢
      rw [hheads]
      have h7k := h7 k hk hlive
      have hnmi : ¬matchesId s' (getBuf s k).dev (getBuf s k).blockno i := by
        unfold matchesId
        rw [hgb_i]
        intro ⟨hdeq, hbeq⟩
        simp only at hdeq hbeq
        rw [← hbeq, ← hdeq] at h7k
        rw [hf] at h7k
        cases h7k
      by_cases hbk : (getBuf s k).blockno % NBUCKETS = blockno % NBUCKETS
      · rw [hbk, hhead_id, findHit_cons, if_neg hnmi]
        rw [findHit_congr (fun j hj => hsame j (fun hji =>
          (h4 _ hid).not_mem_erase (hji ▸ hj)))]
        rw [hbk] at h7k
        exact findHit_erase (fun h => hki h.symm) h7k
      · rw [hhead_ne _ (fun h => hbk h.symm)]
        have hbkN : (getBuf s k).blockno % NBUCKETS < NBUCKETS := Nat.mod_lt _ NBUCKETS_pos
        rw [findHit_congr (fun j hj => hsame j (fun hji =>
          (h4 _ hbkN).not_mem_erase (hji ▸ hj)))]
        exact findHit_erase (fun h => hki h.symm) h7k
  · intro k hk
    by_cases hki : k = i
    · subst hki
      rw [hgb_i]
      show 1 < UINTMOD
      norm_num [UINTMOD]
    · rw [hgb_ne k hki]
      exact h8 k hk

/-- Case analysis of a successful `bget`: hit, in-bucket claim, or
steal-path claim. -/
theorem bget_cases {s : BCache} {tid dev blockno : Nat} {s' : BCache} {i : Nat}
    (h : (bget s tid dev blockno).2 = some (s', i)) :
    (findHit s dev blockno (getHead s (blockno % NBUCKETS)) = some i ∧
      s' = acquiresleep (setBuf s i { getBuf s i with refcnt := ((getBuf s i).refcnt + 1) % UINTMOD }) tid i) ∨
    (findHit s dev blockno (getHead s (blockno % NBUCKETS)) = none ∧
      findFree s (getHead s (blockno % NBUCKETS)).reverse = some i ∧
      s' = acquiresleep (claimInPlace s i dev blockno) tid i) ∨
    (findHit s dev blockno (getHead s (blockno % NBUCKETS)) = none ∧
      findFree s (getHead s (blockno % NBUCKETS)).reverse = none ∧
      i < NBUF ∧ (getBuf s i).refcnt = 0 ∧
      (getBuf s i).blockno % NBUCKETS ≠ blockno % NBUCKETS ∧
      s' = acquiresleep (pushFront (unlink (claimInPlace s i dev blockno) i) (blockno % NBUCKETS) i) tid i) := by
  unfold bget at h
  cases hf : findHit s dev blockno (getHead s (blockno % NBUCKETS)) with
  | some j =>
    rw [hf] at h
    simp only [Option.some.injEq, Prod.mk.injEq] at h
    rcases h with ⟨hst, hidx⟩
    subst hidx
    exact Or.inl ⟨rfl, hst.symm⟩
  | none =>
    rw [hf] at h
    cases hfr : findFree s (getHead s (blockno % NBUCKETS)).reverse with
    | some j =>
      rw [hfr] at h
      simp only [Option.some.injEq, Prod.mk.injEq] at h
      rcases h with ⟨hst, hidx⟩
      subst hidx
      exact Or.inr (Or.inl ⟨rfl, rfl, hst.symm⟩)
    | none =>
      rw [hfr] at h
      simp only [Option.map_eq_some'] at h
      rcases h with ⟨⟨s0, i0⟩, hscan, heq⟩
      simp only [Prod.mk.injEq] at heq
      rcases heq with ⟨hst, hidx⟩
      subst hidx
      obtain ⟨hmem, hfree, hnid, hshape⟩ := stealScan_some hscan
      subst hshape
      exact Or.inr (Or.inr ⟨rfl, rfl, List.mem_range.mp hmem, hfree, hnid, hst.symm⟩)

theorem inv_bget {s : BCache} {tid dev blockno : Nat} {s' : BCache} {i : Nat}
    (hs : CacheInv s) (h : (bget s tid dev blockno).2 = some (s', i)) :
    CacheInv s' := by
  rcases bget_cases h with ⟨hf, rfl⟩ | ⟨hf, hfr, rfl⟩ | ⟨hf, hfr, hiN, hfree, hnid, rfl⟩
  · exact inv_hit hs hf
  · exact inv_fastclaim hs hf hfr
  · exact inv_steal hs hf hiN hfree

/-- Let-free unfolding of `brelse`. -/
theorem brelse_eq (s : BCache) (tid i : Nat) :
    brelse s tid i =
      if (getBuf s i).held = some tid then
        if ((getBuf (releasesleep s i) i).refcnt + UINTMOD - 1) % UINTMOD = 0 then
          Except.ok (pushFront (unlink (setBuf (releasesleep s i) i { getBuf (releasesleep s i) i with refcnt := ((getBuf (releasesleep s i) i).refcnt + UINTMOD - 1) % UINTMOD }) i) ((getBuf (releasesleep s i) i).blockno % NBUCKETS) i)
        else
          Except.ok (setBuf (releasesleep s i) i { getBuf (releasesleep s i) i with refcnt := ((getBuf (releasesleep s i) i).refcnt + UINTMOD - 1) % UINTMOD })
      else Except.error s := rfl

theorem inv_brelse {s : BCache} {tid i : Nat} {s' : BCache}
    (hs : CacheInv s) (hiN : i < NBUF) (hlive : 0 < (getBuf s i).refcnt)
    (h : brelse s tid i = Except.ok s') : CacheInv s' := by
  obtain ⟨h1, h2, h3, h4, h5, h6, h7, h8⟩ := id hs
  have hilen : i < s.bufs.length := by rw [h1]; exact hiN
  have hbid : (getBuf s i).blockno % NBUCKETS < NBUCKETS := Nat.mod_lt _ NBUCKETS_pos
  have hb1 : getBuf (releasesleep s i) i = { getBuf s i with held := none } := by
    unfold releasesleep
    rw [getBuf_setBuf_self _ hilen]
  rw [brelse_eq, hb1] at h
  simp only at h
  by_cases hheld : (getBuf s i).held = some tid
  · rw [if_pos hheld] at h
    have hrd : ((getBuf s i).refcnt + UINTMOD - 1) % UINTMOD = (getBuf s i).refcnt - 1 :=
      decr_mod hlive (h8 i hiN)
    rw [hrd] at h
    set u : BCache := setBuf (releasesleep s i) i { getBuf s i with held := none, refcnt := (getBuf s i).refcnt - 1 } with hu
    have hulen : u.bufs.length = s.bufs.length := by
      rw [hu]
      unfold releasesleep
      rw [bufs_length_setBuf, bufs_length_setBuf]
    have hgbu_i : getBuf u i = { getBuf s i with held := none, refcnt := (getBuf s i).refcnt - 1 } := by
      rw [hu]
      exact getBuf_setBuf_self _ (by unfold releasesleep; rw [bufs_length_setBuf]; exact hilen)
    have hgbu_ne : ∀ k, k ≠ i → getBuf u k = getBuf s k := by
      intro k hk
      rw [hu]
      unfold releasesleep
      rw [getBuf_setBuf_ne _ (Ne.symm hk), getBuf_setBuf_ne _ (Ne.symm hk)]
    have hheadsu : ∀ j, getHead u j = getHead s j := fun _ => rfl
    have huhl : u.heads.length = s.heads.length := rfl
    have hsameu : ∀ j, (getBuf u j).dev = (getBuf s j).dev ∧
        (getBuf u j).blockno = (getBuf s j).blockno := by
      intro j
      by_cases hj : j = i
      · subst hj; rw [hgbu_i]; exact ⟨rfl, rfl⟩
      · rw [hgbu_ne j hj]; exact ⟨rfl, rfl⟩
    by_cases hr : (getBuf s i).refcnt - 1 = 0
    · rw [if_pos hr] at h
      have hs'eq : s' = pushFront (unlink u i) ((getBuf s i).blockno % NBUCKETS) i := by
        cases h; rfl
      subst hs'eq
      have hul : (getBuf s i).blockno % NBUCKETS < u.heads.length := by
        rw [huhl, h2]; exact hbid
      have hund : ∀ j' < u.heads.length, (getHead u j').Nodup := by
        intro j' hj'
        rw [hheadsu]
        exact h4 j' (by rw [← h2, ← huhl]; exact hj')
      have hhead_id : getHead (pushFront (unlink u i) ((getBuf s i).blockno % NBUCKETS) i) ((getBuf s i).blockno % NBUCKETS) = i :: (getHead s ((getBuf s i).blockno % NBUCKETS)).erase i := by
        rw [getHead_relink_self hul, hheadsu]
      have hhead_ne : ∀ j, (getBuf s i).blockno % NBUCKETS ≠ j →
          getHead (pushFront (unlink u i) ((getBuf s i).blockno % NBUCKETS) i) j = (getHead s j).erase i := by
        intro j hj
        rw [getHead_relink_ne hj, hheadsu]
      refine ⟨?_, ?_, ?_, ?_, ?_, ?_, ?_, ?_⟩
      · show (pushFront (unlink u i) _ i).bufs.length = NBUF
        rw [bufs_pushFront, bufs_unlink, hulen]
        exact h1
      · show (pushFront (unlink u i) _ i).heads.length = NBUCKETS
        rw [heads_length_pushFront, heads_length_unlink, huhl]
        exact h2
      · intro j hj k hk
        by_cases hjid : (getBuf s i).blockno % NBUCKETS = j
        · subst hjid
          rw [hhead_id] at hk
          rcases List.mem_cons.mp hk with rfl | hk
          · exact hiN
          · exact h3 _ hbid k ((List.erase_sublist _ _).subset hk)
        · rw [hhead_ne j hjid] at hk
          exact h3 j hj k ((List.erase_sublist _ _).subset hk)
      · intro j hj
        by_cases hjid : (getBuf s i).blockno % NBUCKETS = j
        · subst hjid
          rw [hhead_id]
          exact List.nodup_cons.mpr ⟨(h4 _ hbid).not_mem_erase, (h4 _ hbid).erase _⟩
        · rw [hhead_ne j hjid]
          exact (h4 j hj).erase _
      · intro j1 hj1 j2 hj2 k hk1 hk2
        by_cases hki : k = i
        · subst hki
          have e1 := (mem_relink_self hul hund (by rw [huhl, h2]; exact hj1)).mp hk1
          have e2 := (mem_relink_self hul hund (by rw [huhl, h2]; exact hj2)).mp hk2
          rw [e1, e2]
        · have hk1' : k ∈ getHead s j1 := (mem_relink_ne hki hul).mp hk1
          have hk2' : k ∈ getHead s j2 := (mem_relink_ne hki hul).mp hk2
          exact h5 j1 hj1 j2 hj2 k hk1' hk2'
      · intro k hk hlivek
        have hgbk : getBuf (pushFront (unlink u i) ((getBuf s i).blockno % NBUCKETS) i) k = getBuf u k := rfl
        rw [hgbk] at hlivek ⊢
        by_cases hki : k = i
        · subst hki
          rw [hgbu_i] at hlivek
          exact absurd hlivek (by simp [hr])
        · rw [hgbu_ne k hki] at hlivek ⊢
          exact (mem_relink_ne hki hul).mpr (h6 k hk hlivek)
      · intro k hk hlivek
        have hgbk : getBuf (pushFront (unlink u i) ((getBuf s i).blockno % NBUCKETS) i) k = getBuf u k := rfl
        rw [hgbk] at hlivek ⊢
        by_cases hki : k = i
        · subst hki
          rw [hgbu_i] at hlivek
          exact absurd hlivek (by simp [hr])
        · rw [hgbu_ne k hki] at hlivek ⊢
          have h7k := h7 k hk hlivek
          have hcongr : ∀ (l : List Nat), findHit (pushFront (unlink u i) ((getBuf s i).blockno % NBUCKETS) i) (getBuf s k).dev (getBuf s k).blockno l = findHit s (getBuf s k).dev (getBuf s k).blockno l := by
            intro l
            refine findHit_congr ?_
            intro j _
            exact hsameu j
          have hnmi : ¬matchesId s (getBuf s k).dev (getBuf s k).blockno i := by
            unfold matchesId
            intro ⟨hdeq, hbeq⟩
            exact hki (live_unique hs hk hiN hlivek hlive hdeq.symm hbeq.symm)
          by_cases hbk : (getBuf s k).blockno % NBUCKETS = (getBuf s i).blockno % NBUCKETS
          · rw [hbk, hhead_id, hcongr, findHit_cons, if_neg hnmi]
            rw [hbk] at h7k
            exact findHit_erase (fun hc => hki hc.symm) h7k
          · rw [hhead_ne _ (fun hc => hbk hc.symm), hcongr]
            exact findHit_erase (fun hc => hki hc.symm) h7k
      · intro k hk
        have hgbk : getBuf (pushFront (unlink u i) ((getBuf s i).blockno % NBUCKETS) i) k = getBuf u k := rfl
        rw [hgbk]
        by_cases hki : k = i
        · subst hki
          rw [hgbu_i]
          show (getBuf s k).refcnt - 1 < UINTMOD
          have := h8 k hk
          omega
        · rw [hgbu_ne k hki]
          exact h8 k hk
    · rw [if_neg hr] at h
      have hs'eq : s' = u := (Except.ok.inj h).symm
      subst hs'eq
      refine ⟨?_, h2, ?_, ?_, ?_, ?_, ?_, ?_⟩
      · show u.bufs.length = NBUF
        rw [hulen]; exact h1
      · intro j hj k hk
        rw [hheadsu] at hk
        exact h3 j hj k hk
      · intro j hj
        rw [hheadsu]
        exact h4 j hj
      · intro j1 hj1 j2 hj2 k hk1 hk2
        rw [hheadsu] at hk1 hk2
        exact h5 j1 hj1 j2 hj2 k hk1 hk2
      · intro k hk hlivek
        rw [hheadsu]
        by_cases hki : k = i
        · subst hki
          rw [hgbu_i] at hlivek ⊢
          exact h6 k hk hlive
        · rw [hgbu_ne k hki] at hlivek ⊢
          exact h6 k hk hlivek
      · intro k hk hlivek
        have hcongr : ∀ d b (l : List Nat), findHit u d b l = findHit s d b l := by
          intro d b l
          refine findHit_congr ?_
          intro j _
          exact hsameu j
        by_cases hki : k = i
        · subst hki
          rw [hgbu_i, hheadsu]
          show findHit u (getBuf s k).dev (getBuf s k).blockno (getHead s ((getBuf s k).blockno % NBUCKETS)) = some k
          rw [hcongr]
          exact h7 k hk hlive
        · rw [hgbu_ne k hki] at hlivek ⊢
          rw [hheadsu, hcongr]
          exact h7 k hk hlivek
      · intro k hk
        by_cases hki : k = i
        · subst hki
          rw [hgbu_i]
          show (getBuf s k).refcnt - 1 < UINTMOD
          have := h8 k hk
          omega
        · rw [hgbu_ne k hki]
          exact h8 k hk
  · rw [if_neg hheld] at h
    cases h

theorem inv_refcnt_only {s : BCache} (hs : CacheInv s) {i : Nat} (hiN : i < NBUF)
    {c : Nat} (hc : c < UINTMOD)
    (hmem : 0 < c → 0 < (getBuf s i).refcnt) :
    CacheInv (setBuf s i { getBuf s i with refcnt := c }) := by
  obtain ⟨h1, h2, h3, h4, h5, h6, h7, h8⟩ := id hs
  have hilen : i < s.bufs.length := by rw [h1]; exact hiN
  set s' : BCache := setBuf s i { getBuf s i with refcnt := c } with hs'
  have hgb_i : getBuf s' i = { getBuf s i with refcnt := c } := by
    rw [hs']
    exact getBuf_setBuf_self _ hilen
  have hgb_ne : ∀ k, k ≠ i → getBuf s' k = getBuf s k := by
    intro k hk
    rw [hs']
    exact getBuf_setBuf_ne _ (Ne.symm hk)
  have hheads : ∀ j, getHead s' j = getHead s j := fun _ => rfl
  have hsame : ∀ j, (getBuf s' j).dev = (getBuf s j).dev ∧
      (getBuf s' j).blockno = (getBuf s j).blockno := by
    intro j
    by_cases hj : j = i
    · subst hj; rw [hgb_i]; exact ⟨rfl, rfl⟩
    · rw [hgb_ne j hj]; exact ⟨rfl, rfl⟩
  refine ⟨?_, h2, ?_, ?_, ?_, ?_, ?_, ?_⟩
  · show s'.bufs.length = NBUF
    rw [hs', bufs_length_setBuf]
    exact h1
  · intro j hj k hk
    rw [hheads] at hk
    exact h3 j hj k hk
  · intro j hj
    rw [hheads]
    exact h4 j hj
  · intro j1 hj1 j2 hj2 k hk1 hk2
    rw [hheads] at hk1 hk2
    exact h5 j1 hj1 j2 hj2 k hk1 hk2
  · intro k hk hlivek
    rw [hheads]
    by_cases hki : k = i
    · subst hki
      rw [hgb_i] at hlivek ⊢
      exact h6 k hk (hmem hlivek)
    · rw [hgb_ne k hki] at hlivek ⊢
      exact h6 k hk hlivek
  · intro k hk hlivek
    have hcongr : ∀ d b (l : List Nat), findHit s' d b l = findHit s d b l := by
      intro d b l
      exact findHit_congr (fun j _ => hsame j)
    by_cases hki : k = i
    · subst hki
      rw [hgb_i] at hlivek ⊢
      rw [hheads, hcongr]
      show findHit s (getBuf s k).dev (getBuf s k).blockno
        (getHead s ((getBuf s k).blockno % NBUCKETS)) = some k
      exact h7 k hk (hmem hlivek)
    · rw [hgb_ne k hki] at hlivek ⊢
      rw [hheads, hcongr]
      exact h7 k hk hlivek
  · intro k hk
    by_cases hki : k = i
    · subst hki
      rw [hgb_i]
      exact hc
    · rw [hgb_ne k hki]
      exact h8 k hk

theorem inv_bpin {s : BCache} {i : Nat} (hs : CacheInv s) (hiN : i < NBUF)
    (hlive : 0 < (getBuf s i).refcnt) : CacheInv (bpin s i) :=
  inv_refcnt_only hs hiN (Nat.mod_lt _ UINTMOD_pos) (fun _ => hlive)

theorem inv_bunpin {s : BCache} {i : Nat} (hs : CacheInv s) (hiN : i < NBUF)
    (hlive : 0 < (getBuf s i).refcnt) : CacheInv (bunpin s i) :=
  inv_refcnt_only hs hiN (Nat.mod_lt _ UINTMOD_pos) (fun _ => hlive)

/-- Every reachable state satisfies the cache invariant. -/
theorem inv_reach : ∀ {s : BCache}, Reach s → CacheInv s := by
  intro s h
  induction h with
  | init => exact inv_binit
  | step_bget tid dev blockno _ hbg ih => exact inv_bget ih hbg
  | step_brelse tid i _ hiN hlive hok ih => exact inv_brelse ih hiN hlive hok
  | step_bpin i _ hiN hlive ih => exact inv_bpin ih hiN hlive
  | step_bunpin i _ hiN hlive ih => exact inv_bunpin ih hiN hlive

/-! ### Reachability of the example states -/

theorem reach_exSt1 : Reach exSt1 :=
  @Reach.step_bget binit exSt1 0 0 1 0 Reach.init rfl

theorem reach_exSt2 : Reach exSt2 :=
  @Reach.step_bget exSt1 exSt2 13 0 1 13 reach_exSt1 rfl

theorem reach_exSt3 : Reach exSt3 :=
  @Reach.step_bget exSt2 exSt3 26 0 1 26 reach_exSt2 rfl

theorem reach_exSt4 : Reach exSt4 :=
  @Reach.step_bget exSt3 exSt4 1 0 1 1 reach_exSt3 rfl

theorem reach_exSt5 : Reach exSt5 :=
  @Reach.step_brelse exSt4 exSt5 0 1 reach_exSt4 (by decide) (by decide) rfl

theorem reach_exB5 : Reach exB5 :=
  @Reach.step_bget binit exB5 5 0 1 5 Reach.init rfl

theorem reach_exC9s : Reach exC9s :=
  @Reach.step_brelse exB5 exC9s 0 5 reach_exB5 (by decide) (by decide) rfl

/-! ### Claim theorems -/

theorem getBuf_acquiresleep_self {s : BCache} {tid i : Nat} (h : i < s.bufs.length) :
    getBuf (acquiresleep s tid i) i = { getBuf s i with held := some tid } := by
  unfold acquiresleep
  exact getBuf_setBuf_self _ h

theorem bufs_length_claimInPlace (s : BCache) (i d b : Nat) :
    (claimInPlace s i d b).bufs.length = s.bufs.length := by
  unfold claimInPlace
  exact bufs_length_setBuf ..

theorem getBuf_claimInPlace_self {s : BCache} {i : Nat} (d b : Nat) (h : i < s.bufs.length) :
    getBuf (claimInPlace s i d b) i = { getBuf s i with dev := d, blockno := b, valid := false, refcnt := 1 } := by
  unfold claimInPlace
  exact getBuf_setBuf_self _ h

/-- C1: every `bget(device, blockNumber)` call that returns hands back an
entry whose identity matches the request, whose sleep lock is held by the
caller, and whose reference count is at least 1 once all internal bucket
and global locks have been released (never 0), provided no reference
count is saturated at `2^32 - 1`. -/
theorem C1_acquire_contract {s : BCache} {tid dev blockno : Nat} {s' : BCache} {i : Nat}
    (hs : CacheInv s)
    (hsat : ∀ j < NBUF, (getBuf s j).refcnt + 1 < UINTMOD)
    (h : (bget s tid dev blockno).2 = some (s', i)) :
    (getBuf s' i).dev = dev ∧ (getBuf s' i).blockno = blockno ∧
      (getBuf s' i).held = some tid ∧ 1 ≤ (getBuf s' i).refcnt := by
  obtain ⟨h1, h2, h3, -, -, -, -, -⟩ := id hs
  have hid : blockno % NBUCKETS < NBUCKETS := Nat.mod_lt _ NBUCKETS_pos
  rcases bget_cases h with ⟨hf, rfl⟩ | ⟨hf, hfr, rfl⟩ | ⟨hf, hfr, hiN, hfree, hnid, rfl⟩
  · obtain ⟨hmem, hm⟩ := findHit_some hf
    obtain ⟨hmdev, hmblk⟩ := hm
    have hiN : i < NBUF := h3 _ hid i hmem
    have hilen : i < s.bufs.length := by rw [h1]; exact hiN
    have hgb : getBuf (acquiresleep (setBuf s i { getBuf s i with refcnt := ((getBuf s i).refcnt + 1) % UINTMOD }) tid i) i = { getBuf s i with refcnt := ((getBuf s i).refcnt + 1) % UINTMOD, held := some tid } := by
      rw [getBuf_acquiresleep_self (by rw [bufs_length_setBuf]; exact hilen),
        getBuf_setBuf_self _ hilen]
    rw [hgb]
    refine ⟨hmdev, hmblk, rfl, ?_⟩
    show 1 ≤ ((getBuf s i).refcnt + 1) % UINTMOD
    rw [Nat.mod_eq_of_lt (hsat i hiN)]
    omega
  · obtain ⟨hmem', hfree⟩ := findFree_some hfr
    have hiN : i < NBUF := h3 _ hid i (List.mem_reverse.mp hmem')
    have hilen : i < s.bufs.length := by rw [h1]; exact hiN
    have hgb : getBuf (acquiresleep (claimInPlace s i dev blockno) tid i) i = { getBuf s i with dev := dev, blockno := blockno, valid := false, refcnt := 1, held := some tid } := by
      rw [getBuf_acquiresleep_self (by rw [bufs_length_claimInPlace]; exact hilen),
        getBuf_claimInPlace_self _ _ hilen]
    rw [hgb]
    exact ⟨rfl, rfl, rfl, Nat.le_refl 1⟩
  · have hilen : i < s.bufs.length := by rw [h1]; exact hiN
    have hgb : getBuf (acquiresleep (pushFront (unlink (claimInPlace s i dev blockno) i) (blockno % NBUCKETS) i) tid i) i = { getBuf s i with dev := dev, blockno := blockno, valid := false, refcnt := 1, held := some tid } := by
      rw [getBuf_acquiresleep_self (by show i < (claimInPlace s i dev blockno).bufs.length; rw [bufs_length_claimInPlace]; exact hilen)]
      show ({ getBuf (claimInPlace s i dev blockno) i with held := some tid } : Buf) = _
      rw [getBuf_claimInPlace_self _ _ hilen]
    rw [hgb]
    exact ⟨rfl, rfl, rfl, Nat.le_refl 1⟩

/-- C1 witness: at the initial state, acquiring block `(1, 5)` returns
entry 5 with matching identity, held token, and reference count 1. -/
theorem C1_acquire_contract_witness :
    (getBuf exB5 5).dev = 1 ∧ (getBuf exB5 5).blockno = 5 ∧
      (getBuf exB5 5).held = some 0 ∧ 1 ≤ (getBuf exB5 5).refcnt :=
  @C1_acquire_contract binit 0 1 5 exB5 5 (by decide) (by decide) rfl

/-- C7 counterexample: in the reachable state `exSt1`, entry 0 (block 0
of device 1, reference count 1, sitting at the tail of bucket 0's list)
is released by `bunpin`: the count reaches zero but the bucket lists are
untouched and the entry is not moved to the head, whereas `brelse` from
the same state does move it to the head. -/
theorem C7_counterexample :
    (getBuf exSt1 0).refcnt = 1 ∧
      (getBuf (bunpin exSt1 0) 0).refcnt = 0 ∧
      (bunpin exSt1 0).heads = exSt1.heads ∧
      (getHead (bunpin exSt1 0) 0).head? ≠ some 0 ∧
      (brelse exSt1 0 0).toOption.map (fun t => (getHead t 0).head?) = some (some 0) := by
  decide

/-- C7 (amended): `bunpin` decrements the entry's reference count under
the entry's bucket lock, but — unlike `brelse` — performs no relink when
the count reaches zero: the bucket lists are left unchanged. -/
theorem C7_bunpin_no_relink (s : BCache) (i : Nat) :
    (bunpin s i).heads = s.heads ∧
      (i < s.bufs.length →
        (getBuf (bunpin s i) i).refcnt = ((getBuf s i).refcnt + UINTMOD - 1) % UINTMOD) := by
  refine ⟨rfl, fun h => ?_⟩
  unfold bunpin
  rw [getBuf_setBuf_self _ h]

/-- C7 witness: the amended statement evaluated on `exSt1`, entry 0. -/
theorem C7_bunpin_no_relink_witness :
    (bunpin exSt1 0).heads = exSt1.heads ∧
      (getBuf (bunpin exSt1 0) 0).refcnt = ((getBuf exSt1 0).refcnt + UINTMOD - 1) % UINTMOD :=
  ⟨(C7_bunpin_no_relink exSt1 0).1, (C7_bunpin_no_relink exSt1 0).2 (by decide)⟩

/-- C8: `brelse` and `bwrite` abort (`panic`) exactly when the calling
thread does not hold the entry's sleep lock, and in that case they abort
with the state untouched and no disk write issued; when the lock is held
they do not abort. -/
theorem C8_token_check_aborts (s : BCache) (tid i : Nat) :
    ((getBuf s i).held ≠ some tid →
      brelse s tid i = Except.error s ∧ bwrite s tid i = Except.error s) ∧
    ((getBuf s i).held = some tid →
      (∃ t, brelse s tid i = Except.ok t) ∧
      bwrite s tid i = Except.ok (s, [DiskEv.write (getBuf s i).dev (getBuf s i).blockno])) := by
  constructor
  · intro hn
    rw [brelse_eq, if_neg hn]
    unfold bwrite
    rw [if_neg hn]
    exact ⟨rfl, rfl⟩
  · intro hy
    constructor
    · rw [brelse_eq, if_pos hy]
      by_cases hr : ((getBuf (releasesleep s i) i).refcnt + UINTMOD - 1) % UINTMOD = 0
      · rw [if_pos hr]
        exact ⟨_, rfl⟩
      · rw [if_neg hr]
        exact ⟨_, rfl⟩
    · unfold bwrite
      rw [if_pos hy]

/-- C8 witness: at the initial state no thread holds entry 0's token, so
both calls abort with the state unchanged. -/
theorem C8_token_check_aborts_witness :
    brelse binit 0 0 = Except.error binit ∧ bwrite binit 0 0 = Except.error binit :=
  (C8_token_check_aborts binit 0 0).1 (by decide)

/-- C10: `bunpin` decrements the reference count without checking that
it is nonzero: on an entry with `refcnt == 0` the unsigned count wraps
to `2^32 - 1`, after which the entry is not claimable by the steal scan
and is skipped by the free scan; the decrement of `brelse` is equally
unguarded once the token-ownership check passes. -/
theorem C10_unguarded_decrement_wraps {s : BCache} {i : Nat}
    (hiN : i < NBUF) (hlen : s.bufs.length = NBUF)
    (hz : (getBuf s i).refcnt = 0) :
    (getBuf (bunpin s i) i).refcnt = UINTMOD - 1 ∧
    (getBuf (bunpin s i) i).refcnt ≠ 0 ∧
    (∀ tid, (getBuf s i).held = some tid →
      ∃ t, brelse s tid i = Except.ok t ∧ (getBuf t i).refcnt = UINTMOD - 1) ∧
    (∀ id dev blockno l s2 k,
      (stealScan (bunpin s i) id dev blockno l).2 = some (s2, k) → k ≠ i) ∧
    (∀ l, findFree (bunpin s i) (i :: l) = findFree (bunpin s i) l) := by
  have hilen : i < s.bufs.length := by rw [hlen]; exact hiN
  have hwrap : (0 + UINTMOD - 1) % UINTMOD = UINTMOD - 1 :=
    Nat.mod_eq_of_lt (by have := UINTMOD_pos; omega)
  have hgb : getBuf (bunpin s i) i = { getBuf s i with refcnt := UINTMOD - 1 } := by
    unfold bunpin
    rw [getBuf_setBuf_self _ hilen, hz, hwrap]
  have hM2 : 1 < UINTMOD := by norm_num [UINTMOD]
  refine ⟨by rw [hgb], by rw [hgb]; show UINTMOD - 1 ≠ 0; omega, ?_, ?_, ?_⟩
  · intro tid hy
    rw [brelse_eq, if_pos hy]
    have hb1 : getBuf (releasesleep s i) i = { getBuf s i with held := none } := by
      unfold releasesleep
      rw [getBuf_setBuf_self _ hilen]
    rw [hb1]
    simp only
    rw [hz, hwrap]
    rw [if_neg (by omega : ¬(UINTMOD - 1 = 0))]
    refine ⟨_, rfl, ?_⟩
    rw [getBuf_setBuf_self _ (by unfold releasesleep; rw [bufs_length_setBuf]; exact hilen)]
  · intro id dev blockno l s2 k hscan hki
    subst hki
    have hc := (stealScan_some hscan).2.1
    rw [hgb] at hc
    show False
    simp only at hc
    omega
  · intro l
    show (if (getBuf (bunpin s i) i).refcnt = 0 then some i else findFree (bunpin s i) l) = findFree (bunpin s i) l
    rw [if_neg (by rw [hgb]; show ¬(UINTMOD - 1 = 0); omega)]

/-- C10 witness: `bunpin` on free entry 0 of the initial state yields
reference count `2^32 - 1`. -/
theorem C10_unguarded_decrement_wraps_witness :
    (getBuf (bunpin binit 0) 0).refcnt = UINTMOD - 1 ∧
      (getBuf (bunpin binit 0) 0).refcnt ≠ 0 :=
  ⟨(@C10_unguarded_decrement_wraps binit 0 (by decide) (by decide) (by decide)).1,
   (@C10_unguarded_decrement_wraps binit 0 (by decide) (by decide) (by decide)).2.1⟩

/-- After a successful `bget` for `(dev, blockno)`, the returned entry is
the first match of the hit scan on the target bucket of the new state. -/
theorem bget_findHit_after {s : BCache} {tid dev blockno : Nat} {s' : BCache} {i : Nat}
    (hs : CacheInv s) (h : (bget s tid dev blockno).2 = some (s', i)) :
    findHit s' dev blockno (getHead s' (blockno % NBUCKETS)) = some i := by
  have hs' : CacheInv s' := inv_bget hs h
  obtain ⟨h1, h2, h3, -, -, -, -, -⟩ := id hs
  have hid : blockno % NBUCKETS < NBUCKETS := Nat.mod_lt _ NBUCKETS_pos
  rcases bget_cases h with ⟨hf, rfl⟩ | ⟨hf, hfr, rfl⟩ | ⟨hf, hfr, hiN, hfree, hnid, rfl⟩
  · obtain ⟨hmem, hmdev, hmblk⟩ :
        i ∈ getHead s (blockno % NBUCKETS) ∧ (getBuf s i).dev = dev ∧
          (getBuf s i).blockno = blockno := by
      have hx := findHit_some hf
      exact ⟨hx.1, hx.2.1, hx.2.2⟩
    have hiN : i < NBUF := h3 _ hid i hmem
    have hilen : i < s.bufs.length := by rw [h1]; exact hiN
    set s2 : BCache := acquiresleep (setBuf s i { getBuf s i with refcnt := ((getBuf s i).refcnt + 1) % UINTMOD }) tid i with hs2
    have hident : ∀ j, (getBuf s2 j).dev = (getBuf s j).dev ∧
        (getBuf s2 j).blockno = (getBuf s j).blockno := by
      intro j
      by_cases hj : j = i
      · subst hj
        rw [hs2, getBuf_acquiresleep_self (by rw [bufs_length_setBuf]; exact hilen),
          getBuf_setBuf_self _ hilen]
        exact ⟨rfl, rfl⟩
      · rw [hs2]
        unfold acquiresleep
        rw [getBuf_setBuf_ne _ (Ne.symm hj), getBuf_setBuf_ne _ (Ne.symm hj)]
        exact ⟨rfl, rfl⟩
    show findHit s2 dev blockno (getHead s (blockno % NBUCKETS)) = some i
    rw [findHit_congr (fun j _ => hident j)]
    exact hf
  · obtain ⟨hmem', hfree⟩ := findFree_some hfr
    have hiN : i < NBUF := h3 _ hid i (List.mem_reverse.mp hmem')
    have hilen : i < s.bufs.length := by rw [h1]; exact hiN
    have hgb : getBuf (acquiresleep (claimInPlace s i dev blockno) tid i) i = { getBuf s i with dev := dev, blockno := blockno, valid := false, refcnt := 1, held := some tid } := by
      rw [getBuf_acquiresleep_self (by rw [bufs_length_claimInPlace]; exact hilen),
        getBuf_claimInPlace_self _ _ hilen]
    have h7' := hs'.2.2.2.2.2.2.1
    have := h7' i hiN (by rw [hgb]; exact Nat.one_pos)
    rw [hgb] at this
    exact this
  · have hilen : i < s.bufs.length := by rw [h1]; exact hiN
    have hgb : getBuf (acquiresleep (pushFront (unlink (claimInPlace s i dev blockno) i) (blockno % NBUCKETS) i) tid i) i = { getBuf s i with dev := dev, blockno := blockno, valid := false, refcnt := 1, held := some tid } := by
      rw [getBuf_acquiresleep_self (by show i < (claimInPlace s i dev blockno).bufs.length; rw [bufs_length_claimInPlace]; exact hilen)]
      show ({ getBuf (claimInPlace s i dev blockno) i with held := some tid } : Buf) = _
      rw [getBuf_claimInPlace_self _ _ hilen]
    have h7' := hs'.2.2.2.2.2.2.1
    have := h7' i hiN (by rw [hgb]; exact Nat.one_pos)
    rw [hgb] at this
    exact this

/-- C2: at every reachable state no two pool entries with positive
reference count share the same `(device, blockNumber)` identity, and two
immediately consecutive `bget` calls for the same identity (the first
hold still outstanding) are served by the same pool entry. -/
theorem C2_unique_live_identity {s : BCache} (hr : Reach s) :
    (∀ i < NBUF, ∀ k < NBUF, i ≠ k → 0 < (getBuf s i).refcnt → 0 < (getBuf s k).refcnt →
      ¬((getBuf s i).dev = (getBuf s k).dev ∧ (getBuf s i).blockno = (getBuf s k).blockno)) ∧
    (∀ tid tid' dev blockno s' i s'' k,
      (bget s tid dev blockno).2 = some (s', i) →
      (bget s' tid' dev blockno).2 = some (s'', k) → k = i) := by
  have hs := inv_reach hr
  constructor
  · intro i hi k hk hik hli hlk hcl
    exact hik (live_unique hs hi hk hli hlk hcl.1 hcl.2)
  · intro tid tid' dev blockno s' i s'' k h1 h2
    have hafter := bget_findHit_after hs h1
    rcases bget_cases h2 with ⟨hf2, -⟩ | ⟨hf2, -, -⟩ | ⟨hf2, -, -, -, -, -⟩
    · rw [hafter] at hf2
      exact (Option.some.inj hf2).symm
    · rw [hafter] at hf2
      cases hf2
    · rw [hafter] at hf2
      cases hf2

/-- C2 witness: the uniqueness conclusions evaluated at the reachable
state `exB5` (block 5 of device 1 held). -/
theorem C2_unique_live_identity_witness :
    (∀ i < NBUF, ∀ k < NBUF, i ≠ k → 0 < (getBuf exB5 i).refcnt → 0 < (getBuf exB5 k).refcnt →
      ¬((getBuf exB5 i).dev = (getBuf exB5 k).dev ∧ (getBuf exB5 i).blockno = (getBuf exB5 k).blockno)) ∧
    (∀ tid tid' dev blockno s' i s'' k,
      (bget exB5 tid dev blockno).2 = some (s', i) →
      (bget s' tid' dev blockno).2 = some (s'', k) → k = i) :=
  C2_unique_live_identity reach_exB5

/-- C3: at every reachable state every live entry (`refcnt > 0`) is
linked into bucket `blockno % NBUCKETS` and into no other bucket; and
immediately after the steal path of `bget` returns, the claimed entry
carries the requested block number and is linked into the target
bucket's list. -/
theorem C3_live_bucket_placement {s : BCache} (hr : Reach s) :
    (∀ i < NBUF, 0 < (getBuf s i).refcnt →
      i ∈ getHead s ((getBuf s i).blockno % NBUCKETS) ∧
      ∀ j < NBUCKETS, i ∈ getHead s j → j = (getBuf s i).blockno % NBUCKETS) ∧
    (∀ tid dev blockno s' i,
      findHit s dev blockno (getHead s (blockno % NBUCKETS)) = none →
      findFree s (getHead s (blockno % NBUCKETS)).reverse = none →
      (bget s tid dev blockno).2 = some (s', i) →
      (getBuf s' i).blockno = blockno ∧ i ∈ getHead s' (blockno % NBUCKETS)) := by
  have hs := inv_reach hr
  obtain ⟨h1, h2, h3, h4, h5, h6, h7, h8⟩ := id hs
  constructor
  · intro i hi hlive
    refine ⟨h6 i hi hlive, ?_⟩
    intro j hj hmem
    exact h5 j hj _ (Nat.mod_lt _ NBUCKETS_pos) i hmem (h6 i hi hlive)
  · intro tid dev blockno s' i hf hfr h
    rcases bget_cases h with ⟨hf2, -⟩ | ⟨-, hfr2, -⟩ | ⟨-, -, hiN, hfree, hnid, rfl⟩
    · rw [hf] at hf2
      cases hf2
    · rw [hfr] at hfr2
      cases hfr2
    · have hilen : i < s.bufs.length := by rw [h1]; exact hiN
      have hgb : getBuf (acquiresleep (pushFront (unlink (claimInPlace s i dev blockno) i) (blockno % NBUCKETS) i) tid i) i = { getBuf s i with dev := dev, blockno := blockno, valid := false, refcnt := 1, held := some tid } := by
        rw [getBuf_acquiresleep_self (by show i < (claimInPlace s i dev blockno).bufs.length; rw [bufs_length_claimInPlace]; exact hilen)]
        show ({ getBuf (claimInPlace s i dev blockno) i with held := some tid } : Buf) = _
        rw [getBuf_claimInPlace_self _ _ hilen]
      refine ⟨by rw [hgb], ?_⟩
      have hul : blockno % NBUCKETS < (claimInPlace s i dev blockno).heads.length := by
        show blockno % NBUCKETS < s.heads.length
        rw [h2]
        exact Nat.mod_lt _ NBUCKETS_pos
      show i ∈ getHead (pushFront (unlink (claimInPlace s i dev blockno) i) (blockno % NBUCKETS) i) (blockno % NBUCKETS)
      rw [getHead_relink_self hul]
      exact List.mem_cons_self ..

/-- C3 witness: after the steal path claims entry 1 for block `(1, 39)`
from the reachable state `exSt5`, entry 1 is relabelled to block 39 and
linked into bucket `39 % 13 = 0`. -/
theorem C3_live_bucket_placement_witness :
    (getBuf exSt6 1).blockno = 39 ∧ 1 ∈ getHead exSt6 (39 % NBUCKETS) :=
  (C3_live_bucket_placement reach_exSt5).2 0 1 39 exSt6 1 (by decide) (by decide) rfl

/-- C4 counterexample: in the reachable state `exSt3`, entry 1 is free
and its stale home bucket (`blockno % NBUCKETS`) equals the target
bucket of a request for block 39, yet the pool scan passes over it and
finds nothing — the entry is skipped, not claimed in place. -/
theorem C4_counterexample :
    Reach exSt3 ∧ ((getBuf exSt3 1).refcnt = 0 ∧
      (getBuf exSt3 1).blockno % NBUCKETS = 39 % NBUCKETS ∧
      (stealScan exSt3 (39 % NBUCKETS) 1 39 (List.range NBUF)).2 = none) :=
  ⟨reach_exSt3, by decide⟩

/-- C4 (amended): during the pool scan of the steal path, an entry whose
home bucket (`blockno % NBUCKETS`) equals the target bucket is skipped
outright: the scan never claims such an entry and never re-acquires the
target bucket's lock; free entries of the target bucket are instead
claimed in place (no relink) by the in-bucket scan that precedes the
pool scan. -/
theorem C4_steal_scan_skips_target (s : BCache) (id dev blockno : Nat) (l : List Nat) :
    (∀ s' i, (stealScan s id dev blockno l).2 = some (s', i) →
      (getBuf s i).blockno % NBUCKETS ≠ id) ∧
    LockEv.acqBucket id ∉ (stealScan s id dev blockno l).1 ∧
    (∀ tid i d b, findHit s d b (getHead s (b % NBUCKETS)) = none →
      findFree s (getHead s (b % NBUCKETS)).reverse = some i →
      (bget s tid d b).2 = some (acquiresleep (claimInPlace s i d b) tid i, i)) := by
  refine ⟨?_, stealScan_no_target_bucket, ?_⟩
  · intro s' i h
    exact (stealScan_some h).2.2.1
  · intro tid i d b hf hfr
    unfold bget
    rw [hf, hfr]

/-- C4 witness: the amended statement exercised on the reachable state
`exSt5` — the pool scan for block 39 claims entry 1 from bucket 1 (home
bucket ≠ target 0) without ever touching bucket 0's lock, and a request
for block `(2, 1)` claims free entry 14 of bucket 1 in place. -/
theorem C4_steal_scan_skips_target_witness :
    (getBuf exSt5 1).blockno % NBUCKETS ≠ 0 ∧
      LockEv.acqBucket 0 ∉ (stealScan exSt5 0 1 39 (List.range NBUF)).1 ∧
      (bget exSt5 0 2 1).2 = some (acquiresleep (claimInPlace exSt5 14 2 1) 0 14, 14) :=
  ⟨(C4_steal_scan_skips_target exSt5 0 1 39 (List.range NBUF)).1 exScanSt 1 (by decide),
   (C4_steal_scan_skips_target exSt5 0 1 39 (List.range NBUF)).2.1,
   (C4_steal_scan_skips_target exSt5 0 1 39 (List.range NBUF)).2.2 0 14 2 1 (by decide) (by decide)⟩

/-- C5 counterexample: in the reachable state `exSt3` (the three entries
of bucket 0 pinned, all 27 remaining entries free), a request for block
`(1, 39)` misses and `bget` nevertheless falls through to
`panic("bget: no buffers")` — so free entries at the time of a miss do
not prevent the abort. -/
theorem C5_counterexample :
    Reach exSt3 ∧ ((getBuf exSt3 1).refcnt = 0 ∧ (bget exSt3 0 1 39).2 = none) :=
  ⟨reach_exSt3, by decide⟩

/-- C5 (amended): `bget` aborts with `panic("bget: no buffers")` if and
only if the request misses, the target bucket's list holds no free
entry, and every free entry of the pool has a (stale) block number whose
home bucket equals the target bucket (such entries are skipped by the
pool scan). -/
theorem C5_exhaustion_characterization (s : BCache) (tid dev blockno : Nat) :
    (bget s tid dev blockno).2 = none ↔
      (findHit s dev blockno (getHead s (blockno % NBUCKETS)) = none ∧
       findFree s (getHead s (blockno % NBUCKETS)).reverse = none ∧
       ∀ i < NBUF, (getBuf s i).refcnt = 0 →
         (getBuf s i).blockno % NBUCKETS = blockno % NBUCKETS) := by
  unfold bget
  cases hf : findHit s dev blockno (getHead s (blockno % NBUCKETS)) with
  | some j => simp
  | none =>
    cases hfr : findFree s (getHead s (blockno % NBUCKETS)).reverse with
    | some j => simp
    | none =>
      simp only [Option.map_eq_none', true_and]
      rw [stealScan_none]
      constructor
      · intro h i hi hz
        rcases h i (List.mem_range.mpr hi) with hc | hc
        · exact hc
        · exact absurd hz hc
      · intro h i hi
        by_cases hz : (getBuf s i).refcnt = 0
        · exact Or.inl (h i (List.mem_range.mp hi) hz)
        · exact Or.inr hz

/-- C5 witness: the abort at `exSt3` for block `(1, 39)` is explained by
the characterization — miss, no free entry in bucket 0's list, and every
free entry's stale home bucket is bucket 0. -/
theorem C5_exhaustion_characterization_witness :
    findHit exSt3 1 39 (getHead exSt3 (39 % NBUCKETS)) = none ∧
      findFree exSt3 (getHead exSt3 (39 % NBUCKETS)).reverse = none ∧
      ∀ i < NBUF, (getBuf exSt3 i).refcnt = 0 →
        (getBuf exSt3 i).blockno % NBUCKETS = 39 % NBUCKETS :=
  (C5_exhaustion_characterization exSt3 0 1 39).mp (by decide)

/-- C6: the spinlock traces of `bget` respect the multi-granularity
ordering — the coarse lock is taken only with no bucket lock held and
released only after every bucket lock taken in its critical section has
been released, and bucket locks are never taken recursively; moreover a
successful steal releases the probed entry's home-bucket lock, then the
target bucket's lock, then the global lock, in that order (the last four
events of the trace). -/
theorem C6_lock_ordering (s : BCache) (tid dev blockno : Nat) :
    coarseOrderOK (bget s tid dev blockno).1 false [] = true ∧
    (∀ s' i, findHit s dev blockno (getHead s (blockno % NBUCKETS)) = none →
      findFree s (getHead s (blockno % NBUCKETS)).reverse = none →
      (bget s tid dev blockno).2 = some (s', i) →
      ∃ pre, (bget s tid dev blockno).1 = pre ++
        [LockEv.acqBucket ((getBuf s i).blockno % NBUCKETS),
         LockEv.relBucket ((getBuf s i).blockno % NBUCKETS),
         LockEv.relBucket (blockno % NBUCKETS), LockEv.relGlobal]) := by
  constructor
  · unfold bget
    cases hf : findHit s dev blockno (getHead s (blockno % NBUCKETS)) with
    | some j =>
      simp [coarseOrderOK, List.contains, List.elem_eq_mem, List.erase_cons_head]
    | none =>
      cases hfr : findFree s (getHead s (blockno % NBUCKETS)).reverse with
      | some j =>
        simp [coarseOrderOK, List.contains, List.elem_eq_mem, List.erase_cons_head]
      | none =>
        have hsc := @stealScan_coarseOrderOK s (blockno % NBUCKETS) dev blockno (List.range NBUF)
        simp [coarseOrderOK, List.contains, List.elem_eq_mem, List.erase_cons_head, hsc]
  · intro s' i hf hfr h
    unfold bget at h ⊢
    rw [hf, hfr] at h ⊢
    simp only [Option.map_eq_some'] at h
    rcases h with ⟨⟨s0, i0⟩, hscan, heq⟩
    simp only [Prod.mk.injEq] at heq
    rcases heq with ⟨-, hidx⟩
    subst hidx
    rcases stealScan_trace_success hscan with ⟨pre, hpre⟩
    refine ⟨LockEv.acqBucket (blockno % NBUCKETS) :: LockEv.relBucket (blockno % NBUCKETS) :: LockEv.acqGlobal :: LockEv.acqBucket (blockno % NBUCKETS) :: pre, ?_⟩
    simp only [hpre, List.cons_append]

/-- C6 witness: the trace properties evaluated on the successful steal
from `exSt5` for block `(1, 39)` (probed home bucket 1, target bucket
0). -/
theorem C6_lock_ordering_witness :
    coarseOrderOK (bget exSt5 0 1 39).1 false [] = true ∧
      ∃ pre, (bget exSt5 0 1 39).1 = pre ++
        [LockEv.acqBucket ((getBuf exSt5 1).blockno % NBUCKETS),
         LockEv.relBucket ((getBuf exSt5 1).blockno % NBUCKETS),
         LockEv.relBucket (39 % NBUCKETS), LockEv.relGlobal] :=
  ⟨(C6_lock_ordering exSt5 0 1 39).1,
   (C6_lock_ordering exSt5 0 1 39).2 exSt6 1 (by decide) (by decide) rfl⟩

/-- `brelse` on an entry whose sleep lock the caller holds: the shape of
the resulting state in the relink and no-relink cases. -/
theorem brelse_held {s : BCache} {tid i : Nat}
    (hlen : i < s.bufs.length) (hheld : (getBuf s i).held = some tid) :
    (((getBuf s i).refcnt + UINTMOD - 1) % UINTMOD = 0 →
      brelse s tid i = Except.ok (pushFront (unlink (setBuf (releasesleep s i) i { getBuf s i with held := none, refcnt := ((getBuf s i).refcnt + UINTMOD - 1) % UINTMOD }) i) ((getBuf s i).blockno % NBUCKETS) i)) ∧
    (((getBuf s i).refcnt + UINTMOD - 1) % UINTMOD ≠ 0 →
      brelse s tid i = Except.ok (setBuf (releasesleep s i) i { getBuf s i with held := none, refcnt := ((getBuf s i).refcnt + UINTMOD - 1) % UINTMOD })) := by
  have hb1 : getBuf (releasesleep s i) i = { getBuf s i with held := none } := by
    unfold releasesleep
    rw [getBuf_setBuf_self _ hlen]
  constructor
  · intro hc
    rw [brelse_eq, if_pos hheld, hb1]
    split
    · rfl
    · next hC => exact absurd hc hC
  · intro hc
    rw [brelse_eq, if_pos hheld, hb1]
    split
    · next hC => exact absurd hC hc
    · rfl

/-- C9: starting from a state in which block `(dev, 5)` is cached (the
hit scan of bucket `5 % 13` finds entry `e`), the sequence
`bread; mutate data to v; bwrite; brelse; bread` returns the same entry
both times, the second `bread` issues no Storage Adapter read (its event
list is empty), and the entry it returns is valid and still carries the
written value `v`. -/
theorem C9_cached_write_read (disk : Nat → Nat → Nat) {s : BCache} (tid dev v : Nat)
    (hs : CacheInv s) {e : Nat}
    (hf : findHit s dev 5 (getHead s (5 % NBUCKETS)) = some e) :
    writeReadScenario disk s tid dev v = some (e, e, [], true, v) := by
  obtain ⟨h1, h2, h3, h4, h5, h6, h7, h8⟩ := id hs
  have hid : (5 : Nat) % NBUCKETS < NBUCKETS := by norm_num [NBUCKETS]
  obtain ⟨hmem, hmdev, hmblk⟩ :
      e ∈ getHead s (5 % NBUCKETS) ∧ (getBuf s e).dev = dev ∧ (getBuf s e).blockno = 5 := by
    have hx := findHit_some hf
    exact ⟨hx.1, hx.2.1, hx.2.2⟩
  have heN : e < NBUF := h3 _ hid e hmem
  have helen : e < s.bufs.length := by rw [h1]; exact heN
  set sh : BCache := acquiresleep (setBuf s e { getBuf s e with refcnt := ((getBuf s e).refcnt + 1) % UINTMOD }) tid e with hshdef
  have hbg1 : (bget s tid dev 5).2 = some (sh, e) := by
    unfold bget
    rw [hf]
  have hgb_sh : getBuf sh e = { getBuf s e with refcnt := ((getBuf s e).refcnt + 1) % UINTMOD, held := some tid } := by
    rw [hshdef, getBuf_acquiresleep_self (by rw [bufs_length_setBuf]; exact helen),
      getBuf_setBuf_self _ helen]
  have hgb_sh_ne : ∀ k, k ≠ e → getBuf sh k = getBuf s k := by
    intro k hk
    rw [hshdef]
    unfold acquiresleep
    rw [getBuf_setBuf_ne _ (Ne.symm hk), getBuf_setBuf_ne _ (Ne.symm hk)]
  have hsh_len : sh.bufs.length = NBUF := by
    rw [hshdef]
    unfold acquiresleep
    rw [bufs_length_setBuf, bufs_length_setBuf]
    exact h1
  obtain ⟨s1, evs1, hbread1, hlen1, hhl1, hheads1, hdev1, hblk1, hval1, hheld1, hne1⟩ :
      ∃ s1 evs1, bread disk s tid dev 5 = some (s1, e, evs1) ∧
        s1.bufs.length = NBUF ∧ s1.heads.length = NBUCKETS ∧
        (∀ j, getHead s1 j = getHead s j) ∧
        (getBuf s1 e).dev = dev ∧ (getBuf s1 e).blockno = 5 ∧
        (getBuf s1 e).valid = true ∧ (getBuf s1 e).held = some tid ∧
        (∀ k, k ≠ e → getBuf s1 k = getBuf s k) := by
    by_cases hv : (getBuf s e).valid = true
    · refine ⟨sh, [], ?_, hsh_len, h2, fun _ => rfl, ?_, ?_, ?_, ?_, hgb_sh_ne⟩
      · unfold bread
        rw [hbg1]
        simp only [hgb_sh, hv, if_true]
      · rw [hgb_sh]
        exact hmdev
      · rw [hgb_sh]
        exact hmblk
      · rw [hgb_sh]
        exact hv
      · rw [hgb_sh]
    · have hvf : (getBuf sh e).valid = false := by
        rw [hgb_sh]
        show (getBuf s e).valid = false
        exact Bool.eq_false_iff.mpr hv
      have hshe_len : e < sh.bufs.length := by rw [hsh_len]; exact heN
      refine ⟨setBuf sh e { getBuf sh e with data := disk (getBuf sh e).dev (getBuf sh e).blockno, valid := true }, [DiskEv.read (getBuf sh e).dev (getBuf sh e).blockno], ?_, ?_, h2, fun _ => rfl, ?_, ?_, ?_, ?_, ?_⟩
      · unfold bread
        rw [hbg1]
        simp only [hvf, Bool.false_eq_true, if_false]
      · rw [bufs_length_setBuf]
        exact hsh_len
      · rw [getBuf_setBuf_self _ hshe_len, hgb_sh]
        exact hmdev
      · rw [getBuf_setBuf_self _ hshe_len, hgb_sh]
        exact hmblk
      · rw [getBuf_setBuf_self _ hshe_len]
      · rw [getBuf_setBuf_self _ hshe_len, hgb_sh]
      · intro k hk
        rw [getBuf_setBuf_ne _ (Ne.symm hk)]
        exact hgb_sh_ne k hk
  have he1len : e < s1.bufs.length := by rw [hlen1]; exact heN
  have hgb1' : getBuf (setData s1 e v) e = { getBuf s1 e with data := v } := by
    unfold setData
    rw [getBuf_setBuf_self _ he1len]
  have hne1' : ∀ k, k ≠ e → getBuf (setData s1 e v) k = getBuf s k := by
    intro k hk
    unfold setData
    rw [getBuf_setBuf_ne _ (Ne.symm hk)]
    exact hne1 k hk
  have hheads1' : ∀ j, getHead (setData s1 e v) j = getHead s j := fun j => hheads1 j
  have h1'len : (setData s1 e v).bufs.length = NBUF := by
    unfold setData
    rw [bufs_length_setBuf]
    exact hlen1
  have hheld1' : (getBuf (setData s1 e v) e).held = some tid := by
    rw [hgb1']
    exact hheld1
  have hdev1' : (getBuf (setData s1 e v) e).dev = dev := by
    rw [hgb1']
    exact hdev1
  have hblk1' : (getBuf (setData s1 e v) e).blockno = 5 := by
    rw [hgb1']
    exact hblk1
  have hval1' : (getBuf (setData s1 e v) e).valid = true := by
    rw [hgb1']
    exact hval1
  have hdata1' : (getBuf (setData s1 e v) e).data = v := by
    rw [hgb1']
  have hbw : bwrite (setData s1 e v) tid e = Except.ok (setData s1 e v, [DiskEv.write dev 5]) := by
    unfold bwrite
    rw [if_pos hheld1', hdev1', hblk1']
  have he1'len : e < (setData s1 e v).bufs.length := by rw [h1'len]; exact heN
  have hbrl : getBuf (releasesleep (setData s1 e v) e) e = { getBuf (setData s1 e v) e with held := none } := by
    unfold releasesleep
    rw [getBuf_setBuf_self _ he1'len]
  obtain ⟨s3, hbrelse, hlen3, hfind3, hval3, hdata3⟩ :
      ∃ s3, brelse (setData s1 e v) tid e = Except.ok s3 ∧ s3.bufs.length = NBUF ∧
        findHit s3 dev 5 (getHead s3 (5 % NBUCKETS)) = some e ∧
        (getBuf s3 e).valid = true ∧ (getBuf s3 e).data = v := by
    have hb := brelse_held he1'len hheld1'
    have hu2len : (setBuf (releasesleep (setData s1 e v) e) e { getBuf (setData s1 e v) e with held := none, refcnt := ((getBuf (setData s1 e v) e).refcnt + UINTMOD - 1) % UINTMOD }).bufs.length = NBUF := by
      rw [bufs_length_setBuf]
      unfold releasesleep
      rw [bufs_length_setBuf]
      exact h1'len
    have he2len : e < (releasesleep (setData s1 e v) e).bufs.length := by
      unfold releasesleep
      rw [bufs_length_setBuf]
      exact he1'len
    have hgbu2 : getBuf (setBuf (releasesleep (setData s1 e v) e) e { getBuf (setData s1 e v) e with held := none, refcnt := ((getBuf (setData s1 e v) e).refcnt + UINTMOD - 1) % UINTMOD }) e = { getBuf (setData s1 e v) e with held := none, refcnt := ((getBuf (setData s1 e v) e).refcnt + UINTMOD - 1) % UINTMOD } :=
      getBuf_setBuf_self _ he2len
    have hgbu2_ne : ∀ k, k ≠ e → getBuf (setBuf (releasesleep (setData s1 e v) e) e { getBuf (setData s1 e v) e with held := none, refcnt := ((getBuf (setData s1 e v) e).refcnt + UINTMOD - 1) % UINTMOD }) k = getBuf s k := by
      intro k hk
      rw [getBuf_setBuf_ne _ (Ne.symm hk)]
      unfold releasesleep
      rw [getBuf_setBuf_ne _ (Ne.symm hk)]
      exact hne1' k hk
    by_cases hr : ((getBuf (setData s1 e v) e).refcnt + UINTMOD - 1) % UINTMOD = 0
    · have hbrelse := hb.1 hr
      rw [hblk1'] at hbrelse
      refine ⟨_, hbrelse, ?_, ?_, ?_, ?_⟩
      · show (setBuf (releasesleep (setData s1 e v) e) e _).bufs.length = NBUF
        exact hu2len
      · have hul2 : 5 % NBUCKETS < (setBuf (releasesleep (setData s1 e v) e) e { getBuf (setData s1 e v) e with held := none, refcnt := ((getBuf (setData s1 e v) e).refcnt + UINTMOD - 1) % UINTMOD }).heads.length := by
          show 5 % NBUCKETS < s1.heads.length
          rw [hhl1]
          exact hid
        rw [getHead_relink_self hul2, findHit_cons, if_pos ?_]
        unfold matchesId
        constructor
        · show (getBuf (pushFront _ (5 % NBUCKETS) e) e).dev = dev
          rw [getBuf_pushFront, getBuf_unlink, hgbu2]
          exact hdev1'
        · show (getBuf (pushFront _ (5 % NBUCKETS) e) e).blockno = 5
          rw [getBuf_pushFront, getBuf_unlink, hgbu2]
          exact hblk1'
      · rw [getBuf_pushFront, getBuf_unlink, hgbu2]
        exact hval1'
      · rw [getBuf_pushFront, getBuf_unlink, hgbu2]
        exact hdata1'
    · have hbrelse := hb.2 hr
      refine ⟨_, hbrelse, hu2len, ?_, ?_, ?_⟩
      · have hheadsu2 : getHead (setBuf (releasesleep (setData s1 e v) e) e { getBuf (setData s1 e v) e with held := none, refcnt := ((getBuf (setData s1 e v) e).refcnt + UINTMOD - 1) % UINTMOD }) (5 % NBUCKETS) = getHead s (5 % NBUCKETS) :=
          hheads1 (5 % NBUCKETS)
        rw [hheadsu2]
        have hcongr : findHit (setBuf (releasesleep (setData s1 e v) e) e { getBuf (setData s1 e v) e with held := none, refcnt := ((getBuf (setData s1 e v) e).refcnt + UINTMOD - 1) % UINTMOD }) dev 5 (getHead s (5 % NBUCKETS)) = findHit s dev 5 (getHead s (5 % NBUCKETS)) := by
          refine findHit_congr ?_
          intro j _
          by_cases hj : j = e
          · rw [hj, hgbu2]
            constructor
            · show (getBuf (setData s1 e v) e).dev = (getBuf s e).dev
              rw [hdev1', hmdev]
            · show (getBuf (setData s1 e v) e).blockno = (getBuf s e).blockno
              rw [hblk1', hmblk]
          · rw [hgbu2_ne j hj]
            exact ⟨rfl, rfl⟩
        rw [hcongr]
        exact hf
      · rw [hgbu2]
        exact hval1'
      · rw [hgbu2]
        exact hdata1'
  have he3len : e < s3.bufs.length := by rw [hlen3]; exact heN
  set s4 : BCache := acquiresleep (setBuf s3 e { getBuf s3 e with refcnt := ((getBuf s3 e).refcnt + 1) % UINTMOD }) tid e with hs4def
  have hbg2 : (bget s3 tid dev 5).2 = some (s4, e) := by
    unfold bget
    rw [hfind3]
  have hgb4 : getBuf s4 e = { getBuf s3 e with refcnt := ((getBuf s3 e).refcnt + 1) % UINTMOD, held := some tid } := by
    rw [hs4def, getBuf_acquiresleep_self (by rw [bufs_length_setBuf]; exact he3len),
      getBuf_setBuf_self _ he3len]
  have hval4 : (getBuf s4 e).valid = true := by
    rw [hgb4]
    exact hval3
  have hdata4 : (getBuf s4 e).data = v := by
    rw [hgb4]
    exact hdata3
  have hbread2 : bread disk s3 tid dev 5 = some (s4, e, []) := by
    unfold bread
    rw [hbg2]
    simp only [hval4, if_true]
  have step1 : writeReadScenario disk s tid dev v =
      (match bwrite (setData s1 e v) tid e with
       | Except.error _ => none
       | Except.ok (s2, _) =>
         match brelse s2 tid e with
         | Except.error _ => none
         | Except.ok s3 =>
           match bread disk s3 tid dev 5 with
           | none => none
           | some (s4, e2, evs2) => some (e, e2, evs2, (getBuf s4 e2).valid, (getBuf s4 e2).data)) := by
    unfold writeReadScenario
    rw [hbread1]
  have step2 : (match bwrite (setData s1 e v) tid e with
       | Except.error _ => none
       | Except.ok (s2, _) =>
         match brelse s2 tid e with
         | Except.error _ => none
         | Except.ok s3 =>
           match bread disk s3 tid dev 5 with
           | none => none
           | some (s4, e2, evs2) => some (e, e2, evs2, (getBuf s4 e2).valid, (getBuf s4 e2).data)) =
      (match brelse (setData s1 e v) tid e with
       | Except.error _ => none
       | Except.ok s3 =>
         match bread disk s3 tid dev 5 with
         | none => none
         | some (s4, e2, evs2) => some (e, e2, evs2, (getBuf s4 e2).valid, (getBuf s4 e2).data)) := by
    rw [hbw]
  have step3 : (match brelse (setData s1 e v) tid e with
       | Except.error _ => none
       | Except.ok s3 =>
         match bread disk s3 tid dev 5 with
         | none => none
         | some (s4, e2, evs2) => some (e, e2, evs2, (getBuf s4 e2).valid, (getBuf s4 e2).data)) =
      (match bread disk s3 tid dev 5 with
       | none => none
       | some (s4, e2, evs2) => some (e, e2, evs2, (getBuf s4 e2).valid, (getBuf s4 e2).data)) := by
    rw [hbrelse]
  have step4 : (match bread disk s3 tid dev 5 with
       | none => none
       | some (s4, e2, evs2) => some (e, e2, evs2, (getBuf s4 e2).valid, (getBuf s4 e2).data)) =
      some (e, e, [], (getBuf s4 e).valid, (getBuf s4 e).data) := by
    rw [hbread2]
  rw [step1, step2, step3, step4, hval4, hdata4]

/-- C9 witness: on the reachable state `exC9s` (block `(1, 5)` cached in
entry 5 and released), the scenario with written value 42 returns entry
5 twice, no Storage Adapter read on the second `bread`, and valid data
42. -/
theorem C9_cached_write_read_witness :
    writeReadScenario (fun _ _ => 7) exC9s 0 1 42 = some (5, 5, [], true, 42) :=
  C9_cached_write_read (fun _ _ => 7) 0 1 42 (by decide) (by decide)
